import Mathlib

/-!
Verification of the core of a minimal Tcl-style interpreter (tokenizer,
evaluator, call frames, core commands), shallowly embedded from the Rust
source `src/tcl.rs`.  Strings are modelled as lists of byte values
(`List Nat`); machine-integer parsing and arithmetic on `i64` is modelled
on `Int` with explicit range checks against `2 ^ 63`.  Every place where
the Rust code can panic (out-of-bounds indexing, slice inversion,
`Option::unwrap` on `None`, arithmetic overflow, division by zero) is
modelled by the `crash` outcome; the fuel needed by the shallow embedding
running out is the separate `gas` outcome.
-/

namespace Tcl

/-- Token kinds, from `enum Token` in the source. -/
inductive Token where
  | ESC
  | STR
  | CMD
  | VAR
  | SEP
  | EOL
  | EOF
deriving DecidableEq, Repr

/-- Status values, from `enum Status`. -/
inductive Status where
  | OK
  | RETURN
  | BREAK
  | CONTINUE
deriving DecidableEq, Repr

/-- Error kinds, from `enum TclError`. -/
inductive TclError where
  | General
  | Arity
  | CommandNotFound
  | CommandAlreadyDefined
  | VariableNotFound
  | InvalidNumber
deriving DecidableEq, Repr

/-- Outcome of running a piece of embedded code: a value, a Rust panic
(`crash`), or exhaustion of the embedding's fuel (`gas`). -/
inductive Outcome (α : Type) where
  | val (a : α)
  | crash
  | gas
deriving DecidableEq, Repr

deriving instance DecidableEq for Except

/-- Tokenizer state, from `struct Parser`.  The borrowed input string is the
byte list `body`; the `trace` flag only affects diagnostic output and is not
modelled. -/
structure Pstate where
  body : List Nat
  cursor : Nat
  begin_ : Nat
  end_ : Nat
  token : Token
  in_string : Bool
  in_quote : Bool
  in_brace : Bool
  terminating_char : Nat
  brace_level : Nat
deriving DecidableEq, Repr

/-- `Parser::new`. -/
def Pstate.new (body : List Nat) : Pstate :=
  { body := body, cursor := 0, begin_ := 0, end_ := 0, token := Token.EOL,
    in_string := false, in_quote := false, in_brace := false,
    terminating_char := 0, brace_level := 0 }

/-- `Parser::done`: `cursor >= body.len()`. -/
def Pstate.done (p : Pstate) : Bool := p.body.length ≤ p.cursor

/-- `Parser::peek`; the Rust code only calls it when not done. -/
def Pstate.peek (p : Pstate) : Nat := p.body.getD p.cursor 0

/-- The loop of `Parser::consume_whitespace_check_eol`, as a function of the
bytes remaining after the cursor.  Returns (saw a newline and stopped there,
number of bytes consumed).  It consumes space, CR, tab and semicolon; it
stops without consuming at a newline (returning true) or at any other
byte (returning false). -/
def wsRun : List Nat → Bool × Nat
  | [] => (false, 0)
  | c :: rest =>
    if c = 10 then (true, 0)
    else if c = 32 ∨ c = 13 ∨ c = 9 ∨ c = 59 then
      let r := wsRun rest
      (r.1, r.2 + 1)
    else (false, 0)

/-- The comment-skipping loop in `Parser::next_impl` (case `#`): consume
bytes through the next newline inclusive, or to the end of input. -/
def commentRun : List Nat → Nat
  | [] => 0
  | c :: rest => if c = 10 then 1 else 1 + commentRun rest

/-- Calls into the tokenizer: `nxt` is `Parser::next_impl`, `scan` is its
inner scanning loop (with the running `adj` end-adjustment), `drv` is the
sub-parser loop of `Parser::recurse` (drive to `EOF`). -/
inductive TokCall where
  | nxt (p : Pstate)
  | scan (q : Pstate) (adj : Nat)
  | drv (s : Pstate)
deriving DecidableEq, Repr

/-- The tokenizer, fuelled.  `tokF f (.nxt p)` is `p.next_impl()`: it returns
the emitted token and the updated state.  `tokF f (.drv s)` drives the
sub-parser `s` to `EOF` (as `Parser::recurse` does) and returns its final
state (paired with `EOF`).  A `none` result means the fuel ran out; every
recursive call in the Rust code consumes one unit. -/
def tokF : Nat → TokCall → Option (Token × Pstate)
  | 0, _ => none
  | f + 1, c =>
    match c with
    | .nxt p =>
      if p.done then
        if p.token ≠ Token.EOF ∧ p.token ≠ Token.EOL then
          some (Token.EOL, { p with token := Token.EOL })
        else
          some (Token.EOF, { p with token := Token.EOF })
      else
        tokF f (.scan { p with token := Token.ESC, begin_ := p.cursor } 0)
    | .scan q adj =>
      if q.done then
        some (q.token, { q with end_ := q.cursor - adj })
      else if q.peek = q.terminating_char then
        some (Token.EOF, { q with cursor := q.cursor + 1, end_ := q.cursor })
      else if q.peek = 123 then
        -- left brace
        if q.in_quote ∨ q.in_string then
          tokF f (.scan { q with cursor := q.cursor + 1 } 0)
        else if ¬ q.in_brace then
          tokF f (.scan { q with
              cursor := q.cursor + 1, begin_ := q.begin_ + 1, token := Token.STR,
              in_brace := true, brace_level := q.brace_level + 1 } 0)
        else
          tokF f (.scan { q with
              cursor := q.cursor + 1, brace_level := q.brace_level + 1 } 0)
      else if q.peek = 125 then
        -- right brace
        if q.in_quote ∨ q.in_string then
          tokF f (.scan { q with cursor := q.cursor + 1 } 0)
        else if 0 < q.brace_level then
          if q.brace_level - 1 = 0 then
            some (q.token, { q with
                cursor := q.cursor + 1, brace_level := 0, in_brace := false,
                end_ := q.cursor })
          else
            tokF f (.scan { q with
                cursor := q.cursor + 1, brace_level := q.brace_level - 1 } 0)
        else tokF f (.scan { q with cursor := q.cursor + 1 } 0)
      else if q.peek = 91 then
        -- left bracket: recurse on the suffix with terminating char `]`
        if q.in_string ∨ q.in_quote ∨ q.in_brace then
          tokF f (.scan { q with cursor := q.cursor + 1 } 0)
        else
          match tokF f (.drv { Pstate.new (q.body.drop (q.cursor + 1)) with
                               terminating_char := 93 }) with
          | none => none
          | some (_, sub) =>
            some (Token.CMD, { q with
                begin_ := q.begin_ + 1, cursor := q.cursor + 1 + sub.cursor,
                token := Token.CMD, end_ := q.cursor + 1 + sub.cursor - 1 })
      else if q.peek = 36 then
        -- dollar
        if q.in_string ∨ q.in_brace then
          tokF f (.scan { q with cursor := q.cursor + 1 } 0)
        else if q.in_quote ∧ q.cursor + 1 ≠ q.begin_ + 1 then
          some (q.token, { q with end_ := q.cursor })
        else
          tokF f (.scan { q with
              cursor := q.cursor + 1, begin_ := q.begin_ + 1, token := Token.VAR,
              in_string := true } 0)
      else if q.peek = 35 then
        -- hash: skip the comment, then emit the next token
        if q.in_string ∨ q.in_quote ∨ q.in_brace then
          tokF f (.scan { q with cursor := q.cursor + 1 } 0)
        else
          tokF f (.nxt { q with
              cursor := q.cursor + 1 + commentRun (q.body.drop (q.cursor + 1)) })
      else if q.peek = 34 then
        -- double quote
        if q.in_quote then
          some (q.token, { q with
              cursor := q.cursor + 1, in_quote := false, end_ := q.cursor })
        else
          tokF f (.scan { q with
              cursor := q.cursor + 1, in_quote := true, begin_ := q.begin_ + 1 } 1)
      else if q.peek = 10 ∨ q.peek = 13 ∨ q.peek = 9 ∨ q.peek = 59 ∨ q.peek = 32 then
        -- whitespace and line terminators
        if q.in_brace then tokF f (.scan { q with cursor := q.cursor + 1 } 0)
        else if q.in_string then
          some (q.token, { q with in_string := false, end_ := q.cursor })
        else if q.in_quote then tokF f (.scan { q with cursor := q.cursor + 1 } 0)
        else
          some ((if (wsRun (q.body.drop (q.cursor + 1))).1 then Token.EOL
                 else if q.peek = 10 ∨ q.peek = 59 then Token.EOL else Token.SEP),
            { q with
                cursor := q.cursor + 1 + (wsRun (q.body.drop (q.cursor + 1))).2,
                token := (if (wsRun (q.body.drop (q.cursor + 1))).1 then Token.EOL
                else if q.peek = 10 ∨ q.peek = 59 then Token.EOL else Token.SEP),
                end_ := q.cursor + 1 + (wsRun (q.body.drop (q.cursor + 1))).2 })
      else
        -- any other byte: enter word mode unless inside brace or quote
        if ¬ q.in_brace ∧ ¬ q.in_quote then
          tokF f (.scan { q with cursor := q.cursor + 1, in_string := true } 0)
        else tokF f (.scan { q with cursor := q.cursor + 1 } 0)
    | .drv s =>
      match tokF f (.nxt s) with
      | none => none
      | some (t, s') => if t = Token.EOF then some (Token.EOF, s') else tokF f (.drv s')

/-- `Parser::next` (tracing aside, identical to `next_impl`). -/
def Pstate.next (f : Nat) (p : Pstate) : Option (Token × Pstate) := tokF f (.nxt p)

/-- `Parser::token_body`: the slice `body[begin..end]`.  Rust slicing panics
when `begin > end` or `end > body.len()`; that is the `crash` case. -/
def Pstate.token_body (p : Pstate) : Outcome (List Nat) :=
  if p.begin_ ≤ p.end_ ∧ p.end_ ≤ p.body.length then
    Outcome.val ((p.body.drop p.begin_).take (p.end_ - p.begin_))
  else Outcome.crash

end Tcl

/-! ## Interpreter data model -/

namespace Tcl

/-- A variable, from `struct Var`: an owned `(name, value)` pair. -/
structure Var where
  name : List Nat
  value : List Nat
deriving DecidableEq, Repr

/-- A call frame, from `struct CallFrame`. -/
structure CallFrame where
  vars : List Var
deriving DecidableEq, Repr

/-- `CallFrame::new`. -/
def CallFrame.new : CallFrame := { vars := [] }

/-- The loop of `CallFrame::set_var`: overwrite the first variable with a
matching name in place, else append a new one at the end. -/
def setVarList : List Var → List Nat → List Nat → List Var
  | [], n, v => [{ name := n, value := v }]
  | x :: rest, n, v =>
    if x.name = n then { name := n, value := v } :: rest
    else x :: setVarList rest n v

/-- `CallFrame::set_var`: overwrite in place if the name exists (first
match), else append.  The Rust function always returns `Ok(OK)`, so only
the updated frame is modelled. -/
def CallFrame.set_var (cf : CallFrame) (name value : List Nat) : CallFrame :=
  { vars := setVarList cf.vars name value }

/-- The handler/private-data of a registered command.  In the Rust code a
command stores a function pointer plus opaque private data; the commands
that ever get registered are the core built-ins (each with `None` private
data) and `call_proc` with a `ProcPrivdata { args, body }` payload, which
`user_proc` carries here. -/
inductive CmdImpl where
  | cmd_puts
  | cmd_set
  | cmd_proc
  | cmd_return
  | cmd_if
  | cmd_continue
  | cmd_break
  | cmd_while
  | cmd_math
  | user_proc (args body : List Nat)
deriving DecidableEq, Repr

/-- A registered command, from `struct Cmd`. -/
structure Cmd where
  name : List Nat
  impl : CmdImpl
deriving DecidableEq, Repr

/-- Interpreter state, from `struct Interp` (the `trace_parser` flag only
affects diagnostic output and is not modelled). -/
structure Interp where
  commands : List Cmd
  callframes : List CallFrame
  result : Option (List Nat)
deriving DecidableEq, Repr

/-- `Interp::new`: no commands, one (global) call frame, no result. -/
def Interp.new : Interp :=
  { commands := [], callframes := [CallFrame.new], result := none }

/-- The scan loop of `Interp::get_var`: first matching name wins. -/
def findVar : List Var → List Nat → Option (List Nat)
  | [], _ => none
  | x :: rest, n => if x.name = n then some x.value else findVar rest n

/-- `Interp::get_var`: linear scan of the top (last) call frame only.
`callframes.last().unwrap()` panics when there is no frame. -/
def Interp.get_var (I : Interp) (name : List Nat) : Outcome (Option (List Nat)) :=
  match I.callframes.getLast? with
  | none => Outcome.crash
  | some cf => Outcome.val (findVar cf.vars name)

/-- `Interp::set_var`: update the top (last) call frame;
`last_mut().unwrap()` panics when there is no frame. -/
def Interp.set_var (I : Interp) (name value : List Nat) : Outcome Interp :=
  match I.callframes.getLast? with
  | none => Outcome.crash
  | some cf =>
    Outcome.val { I with
      callframes := I.callframes.dropLast ++ [cf.set_var name value] }

/-- `Interp::get_command`: linear scan, first match. -/
def Interp.get_command (I : Interp) (name : List Nat) : Option Cmd :=
  I.commands.find? (fun c => c.name = name)

/-- Decimal digits (as bytes) of a natural number, fuelled by an upper
bound on the number of digits; empty for `0` (Rust's formatting of a
nonzero number never hits that case). -/
def natDigits : Nat → Nat → List Nat
  | 0, _ => []
  | _ + 1, 0 => []
  | f + 1, n => natDigits f (n / 10) ++ [48 + n % 10]

/-- The decimal byte string of a natural number, as `format!` produces. -/
def natToBytes (n : Nat) : List Nat :=
  if n = 0 then [48] else natDigits (n + 1) n

/-- The decimal byte string of an integer, as `format!` produces for `i64`
values: a leading `-` (byte 45) for negative values. -/
def intToBytes (v : Int) : List Nat :=
  if v < 0 then 45 :: natToBytes (-v).toNat else natToBytes v.toNat

/-- Whether a byte is an ASCII digit. -/
def isDigit (c : Nat) : Bool := 48 ≤ c ∧ c ≤ 57

/-- The value of a list of ASCII digit bytes. -/
def digitsToNat (l : List Nat) : Nat := l.foldl (fun a c => a * 10 + (c - 48)) 0

/-- Rust's `str::parse::<i64>()`: an optional `+` or `-` sign followed by at
least one ASCII digit and nothing else; values outside the `i64` range
(overflow during accumulation) are rejected. -/
def parseI64 (s : List Nat) : Option Int :=
  match s with
  | [] => none
  | c :: rest =>
    let neg : Bool := c = 45
    let ds : List Nat := if c = 45 ∨ c = 43 then rest else s
    if ds = [] then none
    else if ¬ ds.all isDigit then none
    else
      let v : Int := if neg then -(digitsToNat ds : Int) else (digitsToNat ds : Int)
      if v < -(2 ^ 63) ∨ (2 ^ 63 : Int) ≤ v then none else some v

/-- Whether an integer is representable as an `i64`. -/
def i64Range (v : Int) : Prop := -(2 ^ 63) ≤ v ∧ v < 2 ^ 63

instance (v : Int) : Decidable (i64Range v) := by unfold i64Range; infer_instance

/-- List indexing `l[i]` as Rust does it: panic when out of bounds. -/
def ix {α : Type} (l : List α) (i : Nat) : Outcome α :=
  match l.get? i with
  | some a => Outcome.val a
  | none => Outcome.crash

/-- Byte string of a character list (all scripts and messages are ASCII). -/
def bs (l : List Char) : List Nat := l.map Char.toNat

/-- The `format!("command already defined: '{name}'")` message. -/
def cmdAlreadyMsg (name : List Nat) : List Nat :=
  bs ['c','o','m','m','a','n','d',' ','a','l','r','e','a','d','y',' ','d','e','f','i','n','e','d',':',' '] ++ [39] ++ name ++ [39]

/-- `Interp::register_command`: error (setting a message) when the name is
already present, else push the new command.  The returned pair is the Rust
`Result` together with the updated interpreter. -/
def Interp.register_command (I : Interp) (name : List Nat) (impl : CmdImpl) :
    Except TclError Status × Interp :=
  match I.get_command name with
  | some _ =>
    (Except.error TclError.CommandAlreadyDefined, { I with result := some (cmdAlreadyMsg name) })
  | none =>
    (Except.ok Status.OK, { I with commands := I.commands ++ [{ name := name, impl := impl }] })

/-- The arity-violation message of `check_arity`. -/
def arityMsg (name : List Nat) (min max len : Nat) : List Nat :=
  bs ['w','r','o','n','g',' ','n','u','m','b','e','r',' ','o','f',' ','a','r','g','u','m','e','n','t','s',' ','t','o',' '] ++ name ++
  bs [':',' ','e','x','p','e','c','t','e','d',' '] ++ natToBytes min ++ [45] ++ natToBytes max ++
  bs [',',' ','g','o','t',' '] ++ natToBytes len

/-- `check_arity`: message and `Arity` error when `argv.len()` is outside
`min..=max`; the message formats `argv[0]` (a panic when `argv` is empty,
which no caller does). -/
def check_arity (I : Interp) (argv : List (List Nat)) (min max : Nat) :
    Outcome (Except TclError Status × Interp) :=
  if argv.length < min ∨ max < argv.length then
    match argv.get? 0 with
    | none => Outcome.crash
    | some name =>
      Outcome.val (Except.error TclError.Arity,
        { I with result := some (arityMsg name min max argv.length) })
  else Outcome.val (Except.ok Status.OK, I)

/-- The `format!("invalid number: '{}'", s)` message. -/
def invalidNumMsg (s : List Nat) : List Nat :=
  bs ['i','n','v','a','l','i','d',' ','n','u','m','b','e','r',':',' '] ++ [39] ++ s ++ [39]

/-- `cmd_puts`: arity 2..=2; the `println!` side effect is not modelled. -/
def cmd_puts (I : Interp) (argv : List (List Nat)) :
    Outcome (Except TclError Status × Interp) :=
  match check_arity I argv 2 2 with
  | Outcome.val (Except.ok _, I1) => Outcome.val (Except.ok Status.OK, I1)
  | r => r

/-- `cmd_set`: arity 3..=3, then `set_var(argv[1], argv[2])`. -/
def cmd_set (I : Interp) (argv : List (List Nat)) :
    Outcome (Except TclError Status × Interp) :=
  match check_arity I argv 3 3 with
  | Outcome.val (Except.ok _, I1) =>
    match ix argv 1 with
    | Outcome.val name =>
      match ix argv 2 with
      | Outcome.val value =>
        match I1.set_var name value with
        | Outcome.val I2 => Outcome.val (Except.ok Status.OK, I2)
        | Outcome.crash => Outcome.crash
        | Outcome.gas => Outcome.gas
      | Outcome.crash => Outcome.crash
      | Outcome.gas => Outcome.gas
    | Outcome.crash => Outcome.crash
    | Outcome.gas => Outcome.gas
  | r => r

/-- `cmd_return`: arity 2..=2; set the result, return `RETURN`. -/
def cmd_return (I : Interp) (argv : List (List Nat)) :
    Outcome (Except TclError Status × Interp) :=
  match check_arity I argv 2 2 with
  | Outcome.val (Except.ok _, I1) =>
    match ix argv 1 with
    | Outcome.val v => Outcome.val (Except.ok Status.RETURN, { I1 with result := some v })
    | Outcome.crash => Outcome.crash
    | Outcome.gas => Outcome.gas
  | r => r

/-- `cmd_continue`: arity 1..=1. -/
def cmd_continue (I : Interp) (argv : List (List Nat)) :
    Outcome (Except TclError Status × Interp) :=
  match check_arity I argv 1 1 with
  | Outcome.val (Except.ok _, I1) => Outcome.val (Except.ok Status.CONTINUE, I1)
  | r => r

/-- `cmd_break`: arity 1..=1. -/
def cmd_break (I : Interp) (argv : List (List Nat)) :
    Outcome (Except TclError Status × Interp) :=
  match check_arity I argv 1 1 with
  | Outcome.val (Except.ok _, I1) => Outcome.val (Except.ok Status.BREAK, I1)
  | r => r

/-- The `format!("unknown operator: '{}'", argv[1])` message (note the Rust
code formats operand 1, not the operator, here). -/
def unknownOpMsg (s : List Nat) : List Nat :=
  bs ['u','n','k','n','o','w','n',' ','o','p','e','r','a','t','o','r',':',' '] ++ [39] ++ s ++ [39]

/-- The body of `cmd_math` once both operands have parsed: dispatch on the
operator name (`argv[0]`).  Arithmetic is `i64` arithmetic: an overflowing
result, and division by zero, panic (`crash`), as the Rust build with
overflow checks does. -/
def mathOp (I : Interp) (op : List Nat) (opnd1 : List Nat) (a b : Int) :
    Outcome (Except TclError Status × Interp) :=
  if op = bs ['+'] then
    if i64Range (a + b) then
      Outcome.val (Except.ok Status.OK, { I with result := some (intToBytes (a + b)) })
    else Outcome.crash
  else if op = bs ['-'] then
    if i64Range (a - b) then
      Outcome.val (Except.ok Status.OK, { I with result := some (intToBytes (a - b)) })
    else Outcome.crash
  else if op = bs ['*'] then
    if i64Range (a * b) then
      Outcome.val (Except.ok Status.OK, { I with result := some (intToBytes (a * b)) })
    else Outcome.crash
  else if op = bs ['/'] then
    if b = 0 then Outcome.crash
    else if i64Range (Int.tdiv a b) then
      Outcome.val (Except.ok Status.OK, { I with result := some (intToBytes (Int.tdiv a b)) })
    else Outcome.crash
  else if op = bs ['>'] then
    Outcome.val (Except.ok Status.OK, { I with result := some (if b < a then [49] else [48]) })
  else if op = bs ['<'] then
    Outcome.val (Except.ok Status.OK, { I with result := some (if a < b then [49] else [48]) })
  else if op = bs ['=','='] then
    Outcome.val (Except.ok Status.OK, { I with result := some (if a = b then [49] else [48]) })
  else if op = bs ['!','='] then
    Outcome.val (Except.ok Status.OK, { I with result := some (if a ≠ b then [49] else [48]) })
  else if op = bs ['>','='] then
    Outcome.val (Except.ok Status.OK, { I with result := some (if b ≤ a then [49] else [48]) })
  else if op = bs ['<','='] then
    Outcome.val (Except.ok Status.OK, { I with result := some (if a ≤ b then [49] else [48]) })
  else
    Outcome.val (Except.error TclError.General, { I with result := some (unknownOpMsg opnd1) })

/-- `cmd_math`: arity 3..=3; parse both operands as `i64` (a parse failure
is a `General` error whose message embeds the offending operand), then
dispatch on the operator name. -/
def cmd_math (I : Interp) (argv : List (List Nat)) :
    Outcome (Except TclError Status × Interp) :=
  match check_arity I argv 3 3 with
  | Outcome.val (Except.ok _, I1) =>
    match ix argv 1 with
    | Outcome.val s1 =>
      match parseI64 s1 with
      | none =>
        Outcome.val (Except.error TclError.General, { I1 with result := some (invalidNumMsg s1) })
      | some a =>
        match ix argv 2 with
        | Outcome.val s2 =>
          match parseI64 s2 with
          | none =>
            Outcome.val (Except.error TclError.General, { I1 with result := some (invalidNumMsg s2) })
          | some b =>
            match ix argv 0 with
            | Outcome.val op => mathOp I1 op s1 a b
            | Outcome.crash => Outcome.crash
            | Outcome.gas => Outcome.gas
        | Outcome.crash => Outcome.crash
        | Outcome.gas => Outcome.gas
    | Outcome.crash => Outcome.crash
    | Outcome.gas => Outcome.gas
  | r => r

end Tcl

/-! ## The evaluator and the recursive commands -/

namespace Tcl

/-- The `format!("variable not found: '{name}'")` message. -/
def varNotFoundMsg (name : List Nat) : List Nat :=
  bs ['v','a','r','i','a','b','l','e',' ','n','o','t',' ','f','o','u','n','d',':',' '] ++ [39] ++ name ++ [39]

/-- The `format!("command not found: '{cmd_name}'")` message. -/
def cmdNotFoundMsg (name : List Nat) : List Nat :=
  bs ['c','o','m','m','a','n','d',' ','n','o','t',' ','f','o','u','n','d',':',' '] ++ [39] ++ name ++ [39]

/-- The arity message of `call_proc`:
`format!("wrong number of arguments for {}: expected {arity}, got {}", ...)`. -/
def procArityMsg (name : List Nat) (arity got : Nat) : List Nat :=
  bs ['w','r','o','n','g',' ','n','u','m','b','e','r',' ','o','f',' ','a','r','g','u','m','e','n','t','s',' ','f','o','r',' '] ++ name ++
  bs [':',' ','e','x','p','e','c','t','e','d',' '] ++ natToBytes arity ++
  bs [',',' ','g','o','t',' '] ++ natToBytes got

/-- The tail of the token loop in `Interp::eval`: start a fresh argument
when the previous token was `SEP` or `EOL`, else concatenate onto the last
argument (`argv.last().unwrap()` panics when there is none). -/
def appendArg (prevtype : Token) (argv : List (List Nat)) (t : List Nat) :
    Outcome (List (List Nat)) :=
  if prevtype = Token.SEP ∨ prevtype = Token.EOL then Outcome.val (argv ++ [t])
  else
    match argv.getLast? with
    | none => Outcome.crash
    | some prev => Outcome.val (argv.dropLast ++ [prev ++ t])

/-- The length of the run of bytes satisfying `pred` at the head of a list
(the two index-advancing `while` loops in `call_proc`). -/
def runLen (pred : Nat → Bool) : List Nat → Nat
  | [] => 0
  | c :: r => if pred c then runLen pred r + 1 else 0

/-- In the formal-binding loop of `call_proc`: from offset `j`, the offset
past the run of spaces (Rust's first inner `while`). -/
def wordStart (alist : List Nat) (j : Nat) : Nat :=
  j + runLen (fun c => c = 32) (alist.drop j)

/-- In the formal-binding loop of `call_proc`: from offset `j`, the offset
past the space run and then past the following non-space run (Rust's `j`
after both inner `while` loops). -/
def wordEnd (alist : List Nat) (j : Nat) : Nat :=
  wordStart alist j + runLen (fun c => ¬ c = 32) (alist.drop (wordStart alist j))

/-- In the formal-binding loop of `call_proc`: the formal name
`alist[start..j]` scanned from offset `j`. -/
def wordName (alist : List Nat) (j : Nat) : List Nat :=
  (alist.drop (wordStart alist j)).take (wordEnd alist j - wordStart alist j)

/-- The formal-binding loop of `call_proc`: walk the params string `alist`
from offset `j`, skipping runs of spaces and binding each formal name to
`argv[arity + 1]` (that indexing panics when too few actuals were passed).
Returns the interpreter and the number of formals bound.  Each iteration
advances `j`, so fuel `alist.length + 1` always suffices. -/
def bindArgsF : Nat → Interp → List Nat → List (List Nat) → Nat → Nat →
    Outcome (Interp × Nat)
  | 0, _, _, _, _, _ => Outcome.gas
  | f + 1, I, alist, argv, j, arity =>
    if alist.length ≤ j then Outcome.val (I, arity)
    else
      match ix argv (arity + 1) with
      | Outcome.val v =>
        match I.set_var (wordName alist j) v with
        | Outcome.val I' =>
          if alist.length ≤ wordEnd alist j then Outcome.val (I', arity + 1)
          else bindArgsF f I' alist argv (wordEnd alist j) (arity + 1)
        | Outcome.crash => Outcome.crash
        | Outcome.gas => Outcome.gas
      | Outcome.crash => Outcome.crash
      | Outcome.gas => Outcome.gas

/-- The mutually recursive parts of the evaluator: `ev` is `Interp::eval`,
`evLoop` its token loop, `dispatch` the handler invocation, `ifCmd` is
`cmd_if`, `whileCmd`/`whileLoop` are `cmd_while` and its loop, `procCall`
is `call_proc`. -/
inductive EvalCall where
  | ev (I : Interp) (script : List Nat)
  | evLoop (I : Interp) (p : Pstate) (argv : List (List Nat))
  | dispatch (I : Interp) (impl : CmdImpl) (argv : List (List Nat))
  | ifCmd (I : Interp) (argv : List (List Nat))
  | whileCmd (I : Interp) (argv : List (List Nat))
  | whileLoop (I : Interp) (cond body : List Nat)
  | procCall (I : Interp) (args body : List Nat) (argv : List (List Nat))
deriving Repr

/-- `cmd_proc`: arity 4..=4; register `argv[1]` with handler `call_proc`
and private data `(argv[2], argv[3])`; a registration error propagates. -/
def cmd_proc (I : Interp) (argv : List (List Nat)) :
    Outcome (Except TclError Status × Interp) :=
  match check_arity I argv 4 4 with
  | Outcome.val (Except.ok _, I1) =>
    match ix argv 1 with
    | Outcome.val name =>
      match ix argv 2 with
      | Outcome.val args =>
        match ix argv 3 with
        | Outcome.val body =>
          match I1.register_command name (CmdImpl.user_proc args body) with
          | (Except.ok _, I2) => Outcome.val (Except.ok Status.OK, I2)
          | (Except.error e, I2) => Outcome.val (Except.error e, I2)
        | Outcome.crash => Outcome.crash
        | Outcome.gas => Outcome.gas
      | Outcome.crash => Outcome.crash
      | Outcome.gas => Outcome.gas
    | Outcome.crash => Outcome.crash
    | Outcome.gas => Outcome.gas
  | r => r

/-- The evaluator, fuelled; one unit of fuel per recursive call.  Each
`EvalCall` case transcribes the corresponding Rust function; see
`EvalCall`. -/
def runF : Nat → EvalCall → Outcome (Except TclError Status × Interp)
  | 0, _ => Outcome.gas
  | f + 1, c =>
    match c with
    | .ev I script => runF f (.evLoop I (Pstate.new script) [])
    | .evLoop I p argv =>
      let prevtype := p.token
      match tokF (f + 1) (.nxt p) with
      | none => Outcome.gas
      | some (token, p') =>
        match p'.token_body with
        | Outcome.crash => Outcome.crash
        | Outcome.gas => Outcome.gas
        | Outcome.val tb =>
          if token = Token.EOF then Outcome.val (Except.ok Status.OK, I)
          else if token = Token.VAR then
            match I.get_var tb with
            | Outcome.crash => Outcome.crash
            | Outcome.gas => Outcome.gas
            | Outcome.val none =>
              Outcome.val (Except.error TclError.VariableNotFound,
                { I with result := some (varNotFoundMsg tb) })
            | Outcome.val (some v) =>
              match appendArg prevtype argv v with
              | Outcome.val argv' => runF f (.evLoop I p' argv')
              | Outcome.crash => Outcome.crash
              | Outcome.gas => Outcome.gas
          else if token = Token.CMD then
            match runF f (.ev I tb) with
            | Outcome.val (Except.ok Status.OK, I2) =>
              match I2.result with
              | none => Outcome.crash
              | some rv =>
                match appendArg prevtype argv rv with
                | Outcome.val argv' => runF f (.evLoop I2 p' argv')
                | Outcome.crash => Outcome.crash
                | Outcome.gas => Outcome.gas
            | Outcome.val r => Outcome.val r
            | Outcome.crash => Outcome.crash
            | Outcome.gas => Outcome.gas
          else if token = Token.SEP then runF f (.evLoop I p' argv)
          else if token = Token.EOL then
            match argv with
            | [] => runF f (.evLoop I p' [])
            | a0 :: _ =>
              match I.get_command a0 with
              | none =>
                Outcome.val (Except.error TclError.CommandNotFound,
                  { I with result := some (cmdNotFoundMsg a0) })
              | some cmd =>
                match runF f (.dispatch I cmd.impl argv) with
                | Outcome.val (Except.ok Status.OK, I2) => runF f (.evLoop I2 p' [])
                | Outcome.val r => Outcome.val r
                | Outcome.crash => Outcome.crash
                | Outcome.gas => Outcome.gas
          else
            match appendArg prevtype argv tb with
            | Outcome.val argv' => runF f (.evLoop I p' argv')
            | Outcome.crash => Outcome.crash
            | Outcome.gas => Outcome.gas
    | .dispatch I impl argv =>
      match impl with
      | .cmd_puts => cmd_puts I argv
      | .cmd_set => cmd_set I argv
      | .cmd_proc => cmd_proc I argv
      | .cmd_return => cmd_return I argv
      | .cmd_continue => cmd_continue I argv
      | .cmd_break => cmd_break I argv
      | .cmd_math => cmd_math I argv
      | .cmd_if => runF f (.ifCmd I argv)
      | .cmd_while => runF f (.whileCmd I argv)
      | .user_proc args body => runF f (.procCall I args body argv)
    | .ifCmd I argv =>
      match check_arity I argv 3 5 with
      | Outcome.val (Except.ok _, I1) =>
        match ix argv 1 with
        | Outcome.val cond =>
          match ix argv 2 with
          | Outcome.val thenb =>
            let elseb : Option (List Nat) :=
              if argv.length = 5 then argv.get? 4 else none
            match runF f (.ev I1 cond) with
            | Outcome.val (Except.ok Status.OK, I2) =>
              match I2.result with
              | none => Outcome.crash
              | some rv =>
                match parseI64 rv with
                | none =>
                  Outcome.val (Except.error TclError.InvalidNumber,
                    { I2 with result := some (invalidNumMsg cond) })
                | some v =>
                  if v ≠ 0 then runF f (.ev I2 thenb)
                  else
                    match elseb with
                    | some eb => runF f (.ev I2 eb)
                    | none => Outcome.val (Except.ok Status.OK, I2)
            | Outcome.val r => Outcome.val r
            | Outcome.crash => Outcome.crash
            | Outcome.gas => Outcome.gas
          | Outcome.crash => Outcome.crash
          | Outcome.gas => Outcome.gas
        | Outcome.crash => Outcome.crash
        | Outcome.gas => Outcome.gas
      | r => r
    | .whileCmd I argv =>
      match check_arity I argv 3 3 with
      | Outcome.val (Except.ok _, I1) =>
        match ix argv 1 with
        | Outcome.val cond =>
          match ix argv 2 with
          | Outcome.val body => runF f (.whileLoop I1 cond body)
          | Outcome.crash => Outcome.crash
          | Outcome.gas => Outcome.gas
        | Outcome.crash => Outcome.crash
        | Outcome.gas => Outcome.gas
      | r => r
    | .whileLoop I cond body =>
      match runF f (.ev I cond) with
      | Outcome.val (Except.ok s, I1) =>
        if s ≠ Status.OK then Outcome.val (Except.ok s, I1)
        else
          match I1.result with
          | none => Outcome.crash
          | some rv =>
            match parseI64 rv with
            | none =>
              Outcome.val (Except.error TclError.InvalidNumber,
                { I1 with result := some (invalidNumMsg cond) })
            | some v =>
              if v = 0 then Outcome.val (Except.ok Status.OK, I1)
              else
                match runF f (.ev I1 body) with
                | Outcome.val (Except.ok s2, I2) =>
                  if s2 = Status.CONTINUE ∨ s2 = Status.OK then
                    runF f (.whileLoop I2 cond body)
                  else if s2 = Status.BREAK then Outcome.val (Except.ok Status.OK, I2)
                  else Outcome.val (Except.ok s2, I2)
                | Outcome.val (Except.error e2, I2) =>
                  Outcome.val (Except.error e2, I2)
                | Outcome.crash => Outcome.crash
                | Outcome.gas => Outcome.gas
      | Outcome.val (Except.error e1, I1) => Outcome.val (Except.error e1, I1)
      | Outcome.crash => Outcome.crash
      | Outcome.gas => Outcome.gas
    | .procCall I args body argv =>
      let I1 := { I with callframes := I.callframes ++ [CallFrame.new] }
      match bindArgsF (args.length + 1) I1 args argv 0 0 with
      | Outcome.val (I2, arity) =>
        if argv.length = 0 then Outcome.crash
        else if arity ≠ argv.length - 1 then
          match argv.get? 0 with
          | none => Outcome.crash
          | some name =>
            Outcome.val (Except.error TclError.Arity,
              { I2 with result := some (procArityMsg name arity (argv.length - 1)) })
        else
          match runF f (.ev I2 body) with
          | Outcome.val (Except.ok s, I3) =>
            Outcome.val (Except.ok (if s = Status.RETURN then Status.OK else s),
              { I3 with callframes := I3.callframes.dropLast })
          | Outcome.val (Except.error e, I3) => Outcome.val (Except.error e, I3)
          | Outcome.crash => Outcome.crash
          | Outcome.gas => Outcome.gas
      | Outcome.crash => Outcome.crash
      | Outcome.gas => Outcome.gas

/-- `Interp::eval`, fuelled. -/
def Interp.eval (f : Nat) (I : Interp) (script : List Nat) :
    Outcome (Except TclError Status × Interp) :=
  runF f (.ev I script)

/-- `let _ = register_command(...)`: the result is discarded, the state
(including a `CommandAlreadyDefined` message on failure) is kept. -/
def regIgnore (I : Interp) (name : List Nat) (impl : CmdImpl) : Interp :=
  (I.register_command name impl).2

/-- `Interp::register_core_commands`, in source order. -/
def Interp.register_core_commands (I : Interp) : Interp :=
  let I := regIgnore I (bs ['p','u','t','s']) CmdImpl.cmd_puts
  let I := regIgnore I (bs ['s','e','t']) CmdImpl.cmd_set
  let I := regIgnore I (bs ['p','r','o','c']) CmdImpl.cmd_proc
  let I := regIgnore I (bs ['r','e','t','u','r','n']) CmdImpl.cmd_return
  let I := regIgnore I (bs ['i','f']) CmdImpl.cmd_if
  let I := regIgnore I (bs ['c','o','n','t','i','n','u','e']) CmdImpl.cmd_continue
  let I := regIgnore I (bs ['b','r','e','a','k']) CmdImpl.cmd_break
  let I := regIgnore I (bs ['w','h','i','l','e']) CmdImpl.cmd_while
  let I := regIgnore I (bs ['+']) CmdImpl.cmd_math
  let I := regIgnore I (bs ['-']) CmdImpl.cmd_math
  let I := regIgnore I (bs ['*']) CmdImpl.cmd_math
  let I := regIgnore I (bs ['/']) CmdImpl.cmd_math
  let I := regIgnore I (bs ['>']) CmdImpl.cmd_math
  let I := regIgnore I (bs ['<']) CmdImpl.cmd_math
  let I := regIgnore I (bs ['>','=']) CmdImpl.cmd_math
  let I := regIgnore I (bs ['<','=']) CmdImpl.cmd_math
  let I := regIgnore I (bs ['=','=']) CmdImpl.cmd_math
  let I := regIgnore I (bs ['!','=']) CmdImpl.cmd_math
  I

/-- The interpreter the CLI front end starts from: `Interp::new()` followed
by `register_core_commands()`. -/
def initInterp : Interp := Interp.new.register_core_commands

end Tcl

/-! ## Observations of evaluation outcomes -/

namespace Tcl

/-- The error of an evaluation outcome, when it finished with one. -/
def errOf (o : Outcome (Except TclError Status × Interp)) : Option TclError :=
  match o with
  | Outcome.val (Except.error e, _) => some e
  | _ => none

/-- The status of an evaluation outcome, when it finished without error. -/
def okStatusOf (o : Outcome (Except TclError Status × Interp)) : Option Status :=
  match o with
  | Outcome.val (Except.ok s, _) => some s
  | _ => none

/-- The interpreter result slot after an evaluation outcome. -/
def resultOf (o : Outcome (Except TclError Status × Interp)) : Option (List Nat) :=
  match o with
  | Outcome.val (_, I) => I.result
  | _ => none

/-- The number of call frames after an evaluation outcome. -/
def framesOf (o : Outcome (Except TclError Status × Interp)) : Option Nat :=
  match o with
  | Outcome.val (_, I) => some I.callframes.length
  | _ => none

/-- The script `set x 5; $x`. -/
def scrSetDollar : List Nat := bs ['s','e','t',' ','x',' ','5',';',' ','$','x']

/-- The script `set x 5`. -/
def scrSet5 : List Nat := bs ['s','e','t',' ','x',' ','5']

end Tcl

namespace Tcl

/-- C1, counterexample.  On the interpreter with the core commands
registered, `set x 5` succeeds but leaves the result slot empty (`cmd_set`
never writes the result), and the full script `set x 5; $x` does not
complete without error: the substituted value `5` is dispatched as a
command name and evaluation fails with `CommandNotFound` (its message
naming `5`), not with result `"5"`. -/
theorem c1_counterexample :
    errOf (initInterp.eval 100 scrSetDollar) = some TclError.CommandNotFound ∧
    resultOf (initInterp.eval 100 scrSetDollar) = some (cmdNotFoundMsg (bs ['5'])) ∧
    okStatusOf (initInterp.eval 100 scrSet5) = some Status.OK ∧
    resultOf (initInterp.eval 100 scrSet5) = none := by decide

/-- The script `proc p {} {q}` then `p` (whose body fails with
`CommandNotFound`). -/
def scrProcLeak : List Nat :=
  bs ['p','r','o','c',' ','p',' '] ++ [123, 125] ++ [32, 123] ++ bs ['q'] ++ [125, 10] ++ bs ['p']

/-- C2, failing evidence.  Invoking a user-defined procedure whose body
fails pushes a call frame that is never popped: after evaluating
`proc p {} {q}` and then `p` (the body `q` is not a command), the
interpreter that started with one call frame is left with two, so pushes
and pops are not balanced on the error exit path of `call_proc`. -/
theorem c2_frame_leak :
    errOf (initInterp.eval 200 scrProcLeak) = some TclError.CommandNotFound ∧
    framesOf (initInterp.eval 200 scrProcLeak) = some 2 ∧
    initInterp.callframes.length = 1 := by decide

/-- The script `proc f {a b} {}` then `f 1` (one actual for two formals). -/
def scrProcUnder : List Nat :=
  bs ['p','r','o','c',' ','f',' '] ++ [123] ++ bs ['a',' ','b'] ++ [125, 32, 123, 125, 10] ++
  bs ['f',' ','1']

/-- C3, failing evidence.  Invoking a user-defined procedure with fewer
actuals than formals does not produce an `Arity` error: the binding loop
of `call_proc` indexes `argv[arity + 1]` out of bounds first, a panic
(`crash`).  Shown both for the full script `proc f {a b} {}; f 1` and for
`call_proc` itself with formals `a b` and argument vector `[f, 1]`. -/
theorem c3_oob_panic :
    initInterp.eval 200 scrProcUnder = Outcome.crash ∧
    runF 50 (EvalCall.procCall initInterp (bs ['a',' ','b']) [] [bs ['f'], bs ['1']]) =
      Outcome.crash := by decide

/-- C4, counterexample.  On the one-byte input consisting of a NUL byte,
the first `next()` call consumes the whole input and emits `EOF` (the NUL
equals the top-level tokenizer's `terminating_char = 0`, and that early
return does not update the stored token kind); although the previously
emitted token is `EOF` and the input is exhausted, the second call emits
`EOL`, not `EOF`. -/
theorem c4_counterexample :
    (tokF 9 (.nxt (Pstate.new [0]))).map Prod.fst = some Token.EOF ∧
    (tokF 9 (.nxt (Pstate.new [0]))).map (fun r => r.2.done) = some true ∧
    ((tokF 9 (.nxt (Pstate.new [0]))).bind fun r => (tokF 9 (.nxt r.2)).map Prod.fst) =
      some Token.EOL := by decide

/-- C5, failing evidence.  On the one-byte input `"` (an unclosed quote at
end of input) the emitted token's span has `begin = 1 > 0 = end`, and on
the one-byte input `[` (an unclosed command substitution) it likewise has
`begin = 1 > 0 = end`; `token_body` is a panic on such a span, so
evaluating either one-byte script crashes. -/
theorem c5_span_inverted :
    (tokF 9 (.nxt (Pstate.new [34]))).map (fun r => (r.2.begin_, r.2.end_)) = some (1, 0) ∧
    (tokF 9 (.nxt (Pstate.new [91]))).map (fun r => (r.2.begin_, r.2.end_)) = some (1, 0) ∧
    (tokF 9 (.nxt (Pstate.new [34]))).bind (fun r => some r.2.token_body) =
      some Outcome.crash ∧
    initInterp.eval 50 [34] = Outcome.crash ∧
    initInterp.eval 50 [91] = Outcome.crash := by decide

/-- The script `if {} {}`. -/
def scrIfEmpty : List Nat := bs ['i','f',' '] ++ [123, 125, 32, 123, 125]

/-- The script `while {} {}`. -/
def scrWhileEmpty : List Nat := bs ['w','h','i','l','e',' '] ++ [123, 125, 32, 123, 125]

/-- C9, failing evidence.  When the condition script of `if` (or `while`)
is empty, evaluating it returns `OK` without ever writing the result slot;
on a fresh interpreter the slot is still `None`, and the handler's
`interp.result.as_ref().unwrap()` is a panic (`crash`): the read does
fail. -/
theorem c9_unwrap_panic :
    initInterp.eval 100 scrIfEmpty = Outcome.crash ∧
    initInterp.eval 100 scrWhileEmpty = Outcome.crash ∧
    initInterp.result = none := by decide

end Tcl

namespace Tcl

/-- Writing a variable and then looking it up in the same variable list
yields the written value. -/
theorem findVar_setVarList (vars : List Var) (n v : List Nat) :
    findVar (setVarList vars n v) n = some v := by
  induction vars with
  | nil => simp [setVarList, findVar]
  | cons x rest ih =>
    by_cases h : x.name = n
    · simp [setVarList, h, findVar]
    · simp [setVarList, h, findVar, ih]

/-- C1, amended claim.  For every successful invocation of the `set`
command with arguments `name` and `value`, the pair `(name, value)` is
written into the current (topmost) call frame — a subsequent lookup of
`name` yields `value` — the status is `OK`, and the interpreter's result
slot is left unchanged (it is not set to `value`); consequently
`set x n; $x` does not evaluate to `n` but fails with `CommandNotFound`
(see the counterexample). -/
theorem c1_amended (I : Interp) (name value : List Nat) (h : I.callframes ≠ []) :
    ∃ I', cmd_set I [bs ['s','e','t'], name, value] = Outcome.val (Except.ok Status.OK, I') ∧
      I'.get_var name = Outcome.val (some value) ∧
      I'.result = I.result ∧
      I'.callframes.length = I.callframes.length ∧
      I'.commands = I.commands := by
  obtain ⟨cf, hcf⟩ := Option.isSome_iff_exists.mp (List.getLast?_isSome.mpr h)
  refine ⟨{ I with callframes := I.callframes.dropLast ++ [cf.set_var name value] },
    ?_, ?_, rfl, ?_, rfl⟩
  · simp [cmd_set, check_arity, ix, Interp.set_var, hcf]
  · simp [Interp.get_var, CallFrame.set_var, findVar_setVarList]
  · have := List.length_pos.mpr h
    simp [List.length_dropLast]
    omega

/-- C1, witness for the amended claim, at the initial interpreter with
`name = x`, `value = 5`. -/
theorem c1_amended_witness :
    initInterp.callframes ≠ [] ∧
    ∃ I', cmd_set initInterp [bs ['s','e','t'], bs ['x'], bs ['5']] =
        Outcome.val (Except.ok Status.OK, I') ∧
      I'.get_var (bs ['x']) = Outcome.val (some (bs ['5'])) ∧
      I'.result = initInterp.result ∧
      I'.callframes.length = initInterp.callframes.length ∧
      I'.commands = initInterp.commands :=
  ⟨by decide, c1_amended initInterp (bs ['x']) (bs ['5']) (by decide)⟩

/-- C8.  Registering a command under a name that is already present in the
registry returns `CommandAlreadyDefined` and leaves the command registry
(and the call frames) exactly as they were: the existing command's entry is
unchanged and no entry is added. -/
theorem c8_register_already_defined (I : Interp) (name : List Nat) (impl : CmdImpl)
    (c : Cmd) (h : I.get_command name = some c) :
    ∃ I', I.register_command name impl =
        (Except.error TclError.CommandAlreadyDefined, I') ∧
      I'.commands = I.commands ∧ I'.callframes = I.callframes := by
  refine ⟨{ I with result := some (cmdAlreadyMsg name) }, ?_, rfl, rfl⟩
  unfold Interp.register_command
  rw [h]

/-- C8, witness: re-registering `set` on the initial interpreter. -/
theorem c8_witness :
    initInterp.get_command (bs ['s','e','t']) =
      some { name := bs ['s','e','t'], impl := CmdImpl.cmd_set } ∧
    ∃ I', initInterp.register_command (bs ['s','e','t']) CmdImpl.cmd_puts =
        (Except.error TclError.CommandAlreadyDefined, I') ∧
      I'.commands = initInterp.commands ∧ I'.callframes = initInterp.callframes :=
  ⟨by decide,
   c8_register_already_defined initInterp (bs ['s','e','t']) CmdImpl.cmd_puts
     { name := bs ['s','e','t'], impl := CmdImpl.cmd_set } (by decide)⟩

end Tcl

namespace Tcl

/-- The ten operator command names registered for `cmd_math`. -/
def mathOpNames : List (List Nat) :=
  [bs ['+'], bs ['-'], bs ['*'], bs ['/'], bs ['>'], bs ['<'],
   bs ['=','='], bs ['!','='], bs ['>','='], bs ['<','=']]

/-- C7.  For every invocation of an operator command with exactly two
operand arguments: if either operand does not parse as a signed 64-bit
integer, the handler returns error `General` and the result holds a
message containing `invalid number`; otherwise `+`, `-`, `*`, `/` set the
result to the decimal representation of the exact integer result when it
is representable in 64 bits (`/` is the `i64` truncating division, defined
when the divisor is nonzero), and the six comparisons set the result to
`"1"` (byte 49) when the comparison holds and `"0"` (byte 48) otherwise,
returning status `OK`. -/
theorem c7_math (I : Interp) (a b : List Nat) :
    (∀ op ∈ mathOpNames, parseI64 a = none →
      ∃ I', cmd_math I [op, a, b] = Outcome.val (Except.error TclError.General, I') ∧
        I'.result = some (invalidNumMsg a) ∧
        bs ['i','n','v','a','l','i','d',' ','n','u','m','b','e','r'] <:+: invalidNumMsg a) ∧
    (∀ op ∈ mathOpNames, ∀ x : Int, parseI64 a = some x → parseI64 b = none →
      ∃ I', cmd_math I [op, a, b] = Outcome.val (Except.error TclError.General, I') ∧
        I'.result = some (invalidNumMsg b) ∧
        bs ['i','n','v','a','l','i','d',' ','n','u','m','b','e','r'] <:+: invalidNumMsg b) ∧
    (∀ x y : Int, parseI64 a = some x → parseI64 b = some y →
      (i64Range (x + y) → cmd_math I [bs ['+'], a, b] =
        Outcome.val (Except.ok Status.OK, { I with result := some (intToBytes (x + y)) })) ∧
      (i64Range (x - y) → cmd_math I [bs ['-'], a, b] =
        Outcome.val (Except.ok Status.OK, { I with result := some (intToBytes (x - y)) })) ∧
      (i64Range (x * y) → cmd_math I [bs ['*'], a, b] =
        Outcome.val (Except.ok Status.OK, { I with result := some (intToBytes (x * y)) })) ∧
      (y ≠ 0 → i64Range (Int.tdiv x y) → cmd_math I [bs ['/'], a, b] =
        Outcome.val (Except.ok Status.OK, { I with result := some (intToBytes (Int.tdiv x y)) })) ∧
      (cmd_math I [bs ['>'], a, b] =
        Outcome.val (Except.ok Status.OK, { I with result := some (if y < x then [49] else [48]) })) ∧
      (cmd_math I [bs ['<'], a, b] =
        Outcome.val (Except.ok Status.OK, { I with result := some (if x < y then [49] else [48]) })) ∧
      (cmd_math I [bs ['=','='], a, b] =
        Outcome.val (Except.ok Status.OK, { I with result := some (if x = y then [49] else [48]) })) ∧
      (cmd_math I [bs ['!','='], a, b] =
        Outcome.val (Except.ok Status.OK, { I with result := some (if x ≠ y then [49] else [48]) })) ∧
      (cmd_math I [bs ['>','='], a, b] =
        Outcome.val (Except.ok Status.OK, { I with result := some (if y ≤ x then [49] else [48]) })) ∧
      (cmd_math I [bs ['<','='], a, b] =
        Outcome.val (Except.ok Status.OK, { I with result := some (if x ≤ y then [49] else [48]) }))) := by
  refine ⟨?_, ?_, ?_⟩
  · intro op hop ha
    refine ⟨{ I with result := some (invalidNumMsg a) }, ?_, rfl, ?_⟩
    · simp [cmd_math, check_arity, ix, ha]
    · exact ⟨[], [58, 32, 39] ++ a ++ [39], by simp [invalidNumMsg, bs]⟩
  · intro op hop x hx hb
    refine ⟨{ I with result := some (invalidNumMsg b) }, ?_, rfl, ?_⟩
    · simp [cmd_math, check_arity, ix, hx, hb]
    · exact ⟨[], [58, 32, 39] ++ b ++ [39], by simp [invalidNumMsg, bs]⟩
  · intro x y hx hy
    refine ⟨fun hr => ?_, fun hr => ?_, fun hr => ?_, fun h0 hr => ?_,
      ?_, ?_, ?_, ?_, ?_, ?_⟩ <;>
      simp_all [cmd_math, check_arity, ix, mathOp, bs]

/-- C7, witness: `+ 2 3` produces result `5` with status `OK`, and
`+ z 3` produces a `General` error whose message contains
`invalid number`. -/
theorem c7_witness :
    (cmd_math initInterp [bs ['+'], bs ['2'], bs ['3']] =
      Outcome.val (Except.ok Status.OK, { initInterp with result := some (intToBytes (2 + 3)) })) ∧
    (∃ I', cmd_math initInterp [bs ['+'], bs ['z'], bs ['3']] =
        Outcome.val (Except.error TclError.General, I') ∧
      I'.result = some (invalidNumMsg (bs ['z'])) ∧
      bs ['i','n','v','a','l','i','d',' ','n','u','m','b','e','r'] <:+: invalidNumMsg (bs ['z'])) :=
  ⟨((c7_math initInterp (bs ['2']) (bs ['3'])).2.2 2 3 (by decide) (by decide)).1 (by decide),
   (c7_math initInterp (bs ['z']) (bs ['3'])).1 (bs ['+']) (by decide) (by decide)⟩

/-- C10.  The `if` command's arity check accepts every argument count from
3 to 5 inclusive: with exactly 4 arguments it passes the arity check and
behaves exactly as the 3-argument form (the fourth argument is ignored and
never evaluated), and in the 5-argument form the word at position 3 is
never inspected (in particular it is not required to equal `else`). -/
theorem c10_if_forms (f : Nat) (I : Interp) (a0 a1 a2 a3 : List Nat) :
    check_arity I [a0, a1, a2, a3] 3 5 = Outcome.val (Except.ok Status.OK, I) ∧
    runF f (EvalCall.ifCmd I [a0, a1, a2, a3]) = runF f (EvalCall.ifCmd I [a0, a1, a2]) ∧
    ∀ x y a4 : List Nat, runF f (EvalCall.ifCmd I [a0, a1, a2, x, a4]) =
      runF f (EvalCall.ifCmd I [a0, a1, a2, y, a4]) := by
  refine ⟨?_, ?_, ?_⟩
  · simp [check_arity]
  · cases f with
    | zero => rfl
    | succ f => simp [runF, check_arity, ix]
  · intro x y a4
    cases f with
    | zero => rfl
    | succ f => simp [runF, check_arity, ix]

end Tcl

namespace Tcl

/-- The interpreter state an `EvalCall` starts from. -/
def evIn : EvalCall → Interp
  | .ev I _ => I
  | .evLoop I _ _ => I
  | .dispatch I _ _ => I
  | .ifCmd I _ => I
  | .whileCmd I _ => I
  | .whileLoop I _ _ => I
  | .procCall I _ _ _ => I

theorem set_var_frames {I I' : Interp} {n v : List Nat}
    (h : I.set_var n v = Outcome.val I') :
    I'.callframes.length = I.callframes.length := by
  unfold Interp.set_var at h
  split at h
  · exact absurd h (by simp)
  · rename_i cf hcf
    cases h
    have hne : I.callframes ≠ [] := by
      intro hnil; rw [hnil] at hcf; simp at hcf
    have := List.length_pos.mpr hne
    simp [List.length_dropLast]
    omega

theorem check_arity_frames {I I' : Interp} {argv : List (List Nat)} {mn mx : Nat}
    {e : Except TclError Status}
    (h : check_arity I argv mn mx = Outcome.val (e, I')) :
    I'.callframes = I.callframes := by
  unfold check_arity at h
  split at h
  · split at h
    · exact absurd h (by simp)
    · cases h; rfl
  · cases h; rfl

/-- The outcome `o`, produced from interpreter `I`, leaves the number of
call frames unchanged whenever it carries a value. -/
def preservesFrames (o : Outcome (Except TclError Status × Interp)) (I : Interp) : Prop :=
  ∀ e I', o = Outcome.val (e, I') → I'.callframes.length = I.callframes.length

theorem cmd_set_frames (I : Interp) (argv : List (List Nat)) :
    preservesFrames (cmd_set I argv) I := by
  unfold preservesFrames cmd_set
  repeat split
  all_goals intro e I' h
  all_goals try exact Outcome.noConfusion h
  · rename_i x3 a I1 hca x2 v1 h1 x1 v2 h2 x0 I2 hsv
    simp only [Outcome.val.injEq, Prod.mk.injEq] at h
    obtain ⟨-, rfl⟩ := h
    rw [set_var_frames hsv, check_arity_frames hca]
  · rw [check_arity_frames h]

theorem cmd_puts_frames (I : Interp) (argv : List (List Nat)) :
    preservesFrames (cmd_puts I argv) I := by
  unfold preservesFrames cmd_puts
  repeat split
  all_goals intro e I' h
  all_goals try exact Outcome.noConfusion h
  · rename_i x a I1 hca
    simp only [Outcome.val.injEq, Prod.mk.injEq] at h
    obtain ⟨-, rfl⟩ := h
    rw [check_arity_frames hca]
  · rw [check_arity_frames h]

theorem cmd_return_frames (I : Interp) (argv : List (List Nat)) :
    preservesFrames (cmd_return I argv) I := by
  unfold preservesFrames cmd_return
  repeat split
  all_goals intro e I' h
  all_goals try exact Outcome.noConfusion h
  · rename_i x a I1 hca x1 v hv
    simp only [Outcome.val.injEq, Prod.mk.injEq] at h
    obtain ⟨-, rfl⟩ := h
    simp [check_arity_frames hca]
  · rw [check_arity_frames h]

theorem cmd_continue_frames (I : Interp) (argv : List (List Nat)) :
    preservesFrames (cmd_continue I argv) I := by
  unfold preservesFrames cmd_continue
  repeat split
  all_goals intro e I' h
  all_goals try exact Outcome.noConfusion h
  · rename_i x a I1 hca
    simp only [Outcome.val.injEq, Prod.mk.injEq] at h
    obtain ⟨-, rfl⟩ := h
    rw [check_arity_frames hca]
  · rw [check_arity_frames h]

theorem cmd_break_frames (I : Interp) (argv : List (List Nat)) :
    preservesFrames (cmd_break I argv) I := by
  unfold preservesFrames cmd_break
  repeat split
  all_goals intro e I' h
  all_goals try exact Outcome.noConfusion h
  · rename_i x a I1 hca
    simp only [Outcome.val.injEq, Prod.mk.injEq] at h
    obtain ⟨-, rfl⟩ := h
    rw [check_arity_frames hca]
  · rw [check_arity_frames h]

theorem register_command_frames (I : Interp) (n : List Nat) (impl : CmdImpl) :
    (I.register_command n impl).2.callframes = I.callframes := by
  unfold Interp.register_command
  split <;> rfl

theorem cmd_proc_frames (I : Interp) (argv : List (List Nat)) :
    preservesFrames (cmd_proc I argv) I := by
  intro e I' h
  unfold cmd_proc at h
  split at h
  · rename_i x a I1 hca
    split at h
    · rename_i x1 v1 h1
      split at h
      · rename_i x2 v2 h2
        split at h
        · rename_i x3 v3 h3
          split at h
          · rename_i xr s I2 hreg
            simp only [Outcome.val.injEq, Prod.mk.injEq] at h
            obtain ⟨-, rfl⟩ := h
            have h4 : (I1.register_command v1 (CmdImpl.user_proc v2 v3)).2 = I2 := by
              rw [hreg]
            rw [← h4, register_command_frames, check_arity_frames hca]
          · rename_i xr e2 I2 hreg
            simp only [Outcome.val.injEq, Prod.mk.injEq] at h
            obtain ⟨-, rfl⟩ := h
            have h4 : (I1.register_command v1 (CmdImpl.user_proc v2 v3)).2 = I2 := by
              rw [hreg]
            rw [← h4, register_command_frames, check_arity_frames hca]
        · exact Outcome.noConfusion h
        · exact Outcome.noConfusion h
      · exact Outcome.noConfusion h
      · exact Outcome.noConfusion h
    · exact Outcome.noConfusion h
    · exact Outcome.noConfusion h
  · rw [check_arity_frames h]

theorem mathOp_frames (I : Interp) (op o1 : List Nat) (a b : Int) :
    preservesFrames (mathOp I op o1 a b) I := by
  intro e I' h
  simp only [mathOp] at h
  by_cases c0 : op = bs ['+']
  · rw [if_pos c0] at h
    by_cases r0 : i64Range (a + b)
    · rw [if_pos r0] at h
      simp only [Outcome.val.injEq, Prod.mk.injEq] at h
      obtain ⟨-, rfl⟩ := h
      rfl
    · rw [if_neg r0] at h
      exact Outcome.noConfusion h
  · rw [if_neg c0] at h
    by_cases c1 : op = bs ['-']
    · rw [if_pos c1] at h
      by_cases r1 : i64Range (a - b)
      · rw [if_pos r1] at h
        simp only [Outcome.val.injEq, Prod.mk.injEq] at h
        obtain ⟨-, rfl⟩ := h
        rfl
      · rw [if_neg r1] at h
        exact Outcome.noConfusion h
    · rw [if_neg c1] at h
      by_cases c2 : op = bs ['*']
      · rw [if_pos c2] at h
        by_cases r2 : i64Range (a * b)
        · rw [if_pos r2] at h
          simp only [Outcome.val.injEq, Prod.mk.injEq] at h
          obtain ⟨-, rfl⟩ := h
          rfl
        · rw [if_neg r2] at h
          exact Outcome.noConfusion h
      · rw [if_neg c2] at h
        by_cases c3 : op = bs ['/']
        · rw [if_pos c3] at h
          by_cases z3 : b = 0
          · rw [if_pos z3] at h
            exact Outcome.noConfusion h
          · rw [if_neg z3] at h
            by_cases r3 : i64Range (Int.tdiv a b)
            · rw [if_pos r3] at h
              simp only [Outcome.val.injEq, Prod.mk.injEq] at h
              obtain ⟨-, rfl⟩ := h
              rfl
            · rw [if_neg r3] at h
              exact Outcome.noConfusion h
        · rw [if_neg c3] at h
          by_cases c4 : op = bs ['>']
          · rw [if_pos c4] at h
            simp only [Outcome.val.injEq, Prod.mk.injEq] at h
            obtain ⟨-, rfl⟩ := h
            rfl
          · rw [if_neg c4] at h
            by_cases c5 : op = bs ['<']
            · rw [if_pos c5] at h
              simp only [Outcome.val.injEq, Prod.mk.injEq] at h
              obtain ⟨-, rfl⟩ := h
              rfl
            · rw [if_neg c5] at h
              by_cases c6 : op = bs ['=','=']
              · rw [if_pos c6] at h
                simp only [Outcome.val.injEq, Prod.mk.injEq] at h
                obtain ⟨-, rfl⟩ := h
                rfl
              · rw [if_neg c6] at h
                by_cases c7 : op = bs ['!','=']
                · rw [if_pos c7] at h
                  simp only [Outcome.val.injEq, Prod.mk.injEq] at h
                  obtain ⟨-, rfl⟩ := h
                  rfl
                · rw [if_neg c7] at h
                  by_cases c8 : op = bs ['>','=']
                  · rw [if_pos c8] at h
                    simp only [Outcome.val.injEq, Prod.mk.injEq] at h
                    obtain ⟨-, rfl⟩ := h
                    rfl
                  · rw [if_neg c8] at h
                    by_cases c9 : op = bs ['<','=']
                    · rw [if_pos c9] at h
                      simp only [Outcome.val.injEq, Prod.mk.injEq] at h
                      obtain ⟨-, rfl⟩ := h
                      rfl
                    · rw [if_neg c9] at h
                      simp only [Outcome.val.injEq, Prod.mk.injEq] at h
                      obtain ⟨-, rfl⟩ := h
                      rfl

theorem cmd_math_frames (I : Interp) (argv : List (List Nat)) :
    preservesFrames (cmd_math I argv) I := by
  intro e I' h
  unfold cmd_math at h
  split at h
  · rename_i x a I1 hca
    split at h
    · rename_i x1 s1 h1
      split at h
      · simp only [Outcome.val.injEq, Prod.mk.injEq] at h
        obtain ⟨-, rfl⟩ := h
        simp [check_arity_frames hca]
      · rename_i n1 hp1
        split at h
        · rename_i x2 s2 h2
          split at h
          · simp only [Outcome.val.injEq, Prod.mk.injEq] at h
            obtain ⟨-, rfl⟩ := h
            simp [check_arity_frames hca]
          · rename_i n2 hp2
            split at h
            · rename_i x0 op h0
              rw [mathOp_frames I1 op s1 n1 n2 e I' h, check_arity_frames hca]
            · exact Outcome.noConfusion h
            · exact Outcome.noConfusion h
        · exact Outcome.noConfusion h
        · exact Outcome.noConfusion h
    · exact Outcome.noConfusion h
    · exact Outcome.noConfusion h
  · rw [check_arity_frames h]

theorem bindArgsF_frames (f : Nat) (I : Interp) (alist : List Nat)
    (argv : List (List Nat)) (j arity : Nat) {I' : Interp} {arity' : Nat}
    (h : bindArgsF f I alist argv j arity = Outcome.val (I', arity')) :
    I'.callframes.length = I.callframes.length := by
  induction f generalizing I j arity with
  | zero => exact Outcome.noConfusion h
  | succ f ih =>
    unfold bindArgsF at h
    split at h
    · cases h; rfl
    · split at h
      · rename_i xv v hv
        split at h
        · rename_i xs I2 hsv
          split at h
          · cases h
            exact set_var_frames hsv
          · rw [ih I2 _ _ h, set_var_frames hsv]
        · exact Outcome.noConfusion h
        · exact Outcome.noConfusion h
      · exact Outcome.noConfusion h
      · exact Outcome.noConfusion h

end Tcl

namespace Tcl

/-- Any value produced by the evaluator with an `ok` status leaves the
number of call frames unchanged (errors may leak frames, but they are
never converted into an `ok` result anywhere in the evaluator). -/
theorem runF_ok_frames : ∀ (f : Nat) (c : EvalCall) (s : Status) (I' : Interp),
    runF f c = Outcome.val (Except.ok s, I') →
    I'.callframes.length = (evIn c).callframes.length := by
  intro f
  induction f with
  | zero => intro c s I' h; exact Outcome.noConfusion h
  | succ f ih =>
    intro c s I' h
    cases c with
    | ev I script =>
      simp only [runF] at h
      simpa [evIn] using ih _ s I' h
    | evLoop I p argv =>
      simp only [runF, evIn] at h ⊢
      split at h
      · exact Outcome.noConfusion h
      · rename_i r htok
        split at h
        · exact Outcome.noConfusion h
        · exact Outcome.noConfusion h
        · rename_i xb tb htb
          split at h
          · -- EOF
            simp only [Outcome.val.injEq, Prod.mk.injEq] at h
            obtain ⟨-, rfl⟩ := h
            rfl
          · split at h
            · -- VAR
              split at h
              · exact Outcome.noConfusion h
              · exact Outcome.noConfusion h
              · simp at h
              · rename_i xv v hv
                split at h
                · rename_i xa argv2 hap
                  exact ih _ s I' h
                · exact Outcome.noConfusion h
                · exact Outcome.noConfusion h
            · split at h
              · -- CMD
                split at h
                · rename_i I2 hev
                  split at h
                  · exact Outcome.noConfusion h
                  · rename_i rv hres
                    split at h
                    · rename_i xa argv2 hap
                      have hx := ih _ s I' h
                      simp only [evIn] at hx
                      have hy := ih _ Status.OK I2 hev
                      simp only [evIn] at hy
                      rw [hx, hy]
                    · exact Outcome.noConfusion h
                    · exact Outcome.noConfusion h
                · rename_i r2 hne hev
                  simp only [Outcome.val.injEq] at h
                  subst h
                  simpa [evIn] using ih _ s I' hev
                · exact Outcome.noConfusion h
                · exact Outcome.noConfusion h
              · split at h
                · -- SEP
                  simpa [evIn] using ih _ s I' h
                · split at h
                  · -- EOL
                    split at h
                    · simpa [evIn] using ih _ s I' h
                    · rename_i a0 rest
                      split at h
                      · simp at h
                      · rename_i cmd hcmd
                        split at h
                        · rename_i I2 hdisp
                          have hx := ih _ s I' h
                          simp only [evIn] at hx
                          have hy := ih _ Status.OK I2 hdisp
                          simp only [evIn] at hy
                          rw [hx, hy]
                        · rename_i r2 hne hdisp
                          simp only [Outcome.val.injEq] at h
                          subst h
                          simpa [evIn] using ih _ s I' hdisp
                        · exact Outcome.noConfusion h
                        · exact Outcome.noConfusion h
                  · -- ESC / STR
                    split at h
                    · rename_i xa argv2 hap
                      simpa [evIn] using ih _ s I' h
                    · exact Outcome.noConfusion h
                    · exact Outcome.noConfusion h
    | dispatch I impl argv =>
      simp only [runF, evIn] at h ⊢
      cases impl with
      | cmd_puts => exact cmd_puts_frames I argv _ I' h
      | cmd_set => exact cmd_set_frames I argv _ I' h
      | cmd_proc => exact cmd_proc_frames I argv _ I' h
      | cmd_return => exact cmd_return_frames I argv _ I' h
      | cmd_continue => exact cmd_continue_frames I argv _ I' h
      | cmd_break => exact cmd_break_frames I argv _ I' h
      | cmd_math => exact cmd_math_frames I argv _ I' h
      | cmd_if => simpa [evIn] using ih _ s I' h
      | cmd_while => simpa [evIn] using ih _ s I' h
      | user_proc args body => simpa [evIn] using ih _ s I' h
    | ifCmd I argv =>
      simp only [runF, evIn] at h ⊢
      split at h
      · rename_i a I1 hca
        split at h
        · rename_i xc cond hc
          split at h
          · rename_i xt thenb ht
            split at h
            · rename_i I2 hev
              have h2 : I2.callframes.length = I.callframes.length := by
                have hy := ih _ Status.OK I2 hev
                simp only [evIn] at hy
                rw [hy, check_arity_frames hca]
              split at h
              · exact Outcome.noConfusion h
              · rename_i rv hres
                split at h
                · simp at h
                · rename_i v hp
                  split at h
                  · have hx := ih _ s I' h
                    simp only [evIn] at hx
                    rw [hx]; exact h2
                  · split at h
                    · have hx := ih _ s I' h
                      simp only [evIn] at hx
                      rw [hx]; exact h2
                    · simp only [Outcome.val.injEq, Prod.mk.injEq] at h
                      obtain ⟨-, rfl⟩ := h
                      exact h2
            · rename_i r2 hne hev
              simp only [Outcome.val.injEq] at h
              subst h
              have hx := ih _ s I' hev
              simp only [evIn] at hx
              rw [hx, check_arity_frames hca]
            · exact Outcome.noConfusion h
            · exact Outcome.noConfusion h
          · exact Outcome.noConfusion h
          · exact Outcome.noConfusion h
        · exact Outcome.noConfusion h
        · exact Outcome.noConfusion h
      · -- arity failure: returns the check_arity value itself
        rw [check_arity_frames h]
    | whileCmd I argv =>
      simp only [runF, evIn] at h ⊢
      split at h
      · rename_i a I1 hca
        split at h
        · rename_i xc cond hc
          split at h
          · rename_i xb body hb
            have hx := ih _ s I' h
            simp only [evIn] at hx
            rw [hx, check_arity_frames hca]
          · exact Outcome.noConfusion h
          · exact Outcome.noConfusion h
        · exact Outcome.noConfusion h
        · exact Outcome.noConfusion h
      · rw [check_arity_frames h]
    | whileLoop I cond body =>
      simp only [runF, evIn] at h ⊢
      split at h
      · rename_i s1 I1 hev
        have h1 : I1.callframes.length = I.callframes.length := by
          simpa [evIn] using ih _ s1 I1 hev
        split at h
        · simp only [Outcome.val.injEq, Prod.mk.injEq] at h
          obtain ⟨-, rfl⟩ := h
          exact h1
        · split at h
          · exact Outcome.noConfusion h
          · rename_i rv hres
            split at h
            · simp at h
            · rename_i v hp
              split at h
              · simp only [Outcome.val.injEq, Prod.mk.injEq] at h
                obtain ⟨-, rfl⟩ := h
                exact h1
              · split at h
                · rename_i s2 I2 hev2
                  have h2 : I2.callframes.length = I.callframes.length := by
                    have hy := ih _ s2 I2 hev2
                    simp only [evIn] at hy
                    rw [hy]; exact h1
                  split at h
                  · have hx := ih _ s I' h
                    simp only [evIn] at hx
                    rw [hx]; exact h2
                  · split at h
                    · simp only [Outcome.val.injEq, Prod.mk.injEq] at h
                      obtain ⟨-, rfl⟩ := h
                      exact h2
                    · simp only [Outcome.val.injEq, Prod.mk.injEq] at h
                      obtain ⟨-, rfl⟩ := h
                      exact h2
                · simp at h
                · exact Outcome.noConfusion h
                · exact Outcome.noConfusion h
      · simp at h
      · exact Outcome.noConfusion h
      · exact Outcome.noConfusion h
    | procCall I args body argv =>
      simp only [runF, evIn] at h ⊢
      split at h
      · rename_i I2 arity hbind
        have h2 : I2.callframes.length = I.callframes.length + 1 := by
          rw [bindArgsF_frames _ _ _ _ _ _ hbind]
          simp
        split at h
        · exact Outcome.noConfusion h
        · split at h
          · split at h
            · exact Outcome.noConfusion h
            · simp at h
          · split at h
            · rename_i s3 I3 hev
              have h3 : I3.callframes.length = I.callframes.length + 1 := by
                have hy := ih _ s3 I3 hev
                simp only [evIn] at hy
                rw [hy]; exact h2
              simp only [Outcome.val.injEq, Prod.mk.injEq] at h
              obtain ⟨-, rfl⟩ := h
              simp [List.length_dropLast, h3]
            · simp at h
            · exact Outcome.noConfusion h
            · exact Outcome.noConfusion h
      · exact Outcome.noConfusion h
      · exact Outcome.noConfusion h

/-- C6.  For every interpreter state and every script, if `evaluate`
returns with status `OK` (no error), the number of call frames on the
interpreter's stack after the call equals the number before the call. -/
theorem c6_eval_ok_frames (f : Nat) (I : Interp) (script : List Nat) (I' : Interp)
    (h : I.eval f script = Outcome.val (Except.ok Status.OK, I')) :
    I'.callframes.length = I.callframes.length := by
  simpa [evIn] using runF_ok_frames f (EvalCall.ev I script) Status.OK I' h

/-- The script `proc id {x} {return $x}` then `id 7`. -/
def scrC6 : List Nat :=
  bs ['p','r','o','c',' ','i','d',' '] ++ [123] ++ bs ['x'] ++ [125, 32, 123] ++
  bs ['r','e','t','u','r','n',' ','$','x'] ++ [125, 10] ++ bs ['i','d',' ','7']

/-- The interpreter state after evaluating `scrC6`. -/
def c6FinalInterp : Interp :=
  match initInterp.eval 300 scrC6 with
  | Outcome.val (_, J) => J
  | _ => initInterp

/-- C6, witness: a script that defines and calls a procedure (one push and
one pop, with an early `return`) evaluates to `OK` and leaves the frame
count at its initial value. -/
theorem c6_witness :
    initInterp.eval 300 scrC6 = Outcome.val (Except.ok Status.OK, c6FinalInterp) ∧
    c6FinalInterp.callframes.length = initInterp.callframes.length :=
  ⟨by decide, c6_eval_ok_frames 300 initInterp scrC6 c6FinalInterp (by decide)⟩

end Tcl

namespace Tcl

/-- Cost of a token kind in the tokenizer's termination measure: at the end
of the input a non-`EOL`/`EOF` kind still provokes one `EOL` and then `EOF`. -/
def tokcost : Token → Nat
  | Token.EOF => 0
  | Token.EOL => 1
  | _ => 2

/-- Termination measure of a tokenizer state: remaining input dominates,
word mode (`in_string`) can absorb one cursor stall, the stored token kind
counts the end-of-input steps still to come. -/
def M4 (p : Pstate) : Nat :=
  6 * (p.body.length - p.cursor) + (if p.in_string then 3 else 0) + tokcost p.token

theorem tokcost_le (t : Token) : tokcost t ≤ 2 := by
  cases t <;> simp [tokcost]

theorem tokcost_ESC : tokcost Token.ESC = 2 := rfl

theorem tokcost_STR : tokcost Token.STR = 2 := rfl

theorem tokcost_CMD : tokcost Token.CMD = 2 := rfl

theorem tokcost_VAR : tokcost Token.VAR = 2 := rfl

theorem tokcost_SEP : tokcost Token.SEP = 2 := rfl

theorem tokcost_EOL : tokcost Token.EOL = 1 := rfl

theorem tokcost_EOF : tokcost Token.EOF = 0 := rfl

theorem done_false_lt {p : Pstate} (h : p.done = false) :
    p.cursor < p.body.length := by
  simpa [Pstate.done, Nat.not_le] using h

theorem commentRun_le (l : List Nat) : commentRun l ≤ l.length := by
  induction l with
  | nil => simp [commentRun]
  | cons c r ih =>
    by_cases h : c = 10 <;> simp [commentRun, h] <;> omega

theorem wsRun_le (l : List Nat) : (wsRun l).2 ≤ l.length := by
  induction l with
  | nil => simp [wsRun]
  | cons c r ih =>
    by_cases h : c = 10
    · simp [wsRun, h]
    · by_cases h2 : c = 32 ∨ c = 13 ∨ c = 9 ∨ c = 59 <;> simp [wsRun, h, h2] <;> omega

/-- Progress of one `next_impl` call: it succeeds with enough fuel, keeps
the body and the cursor bound, never increases the measure, and strictly
decreases it unless the call started at end of input and emitted `EOF`. -/
def nxtP (p : Pstate) : Prop :=
  ∃ f t p', (∀ g, f ≤ g → tokF g (.nxt p) = some (t, p')) ∧
    p'.body = p.body ∧
    (p.cursor ≤ p.body.length → p'.cursor ≤ p'.body.length) ∧
    M4 p' ≤ M4 p ∧
    ((p.done = false ∨ t ≠ Token.EOF) → M4 p' < M4 p)

/-- Progress of the scanning loop: as `nxtP`, and when the loop starts
before end of input on a stored token kind of cost 2, the measure drops by
at least 3 — except possibly for the in-quote `$` backtrack, which can
only fire when `begin ≠ cursor`. -/
def scanP (q : Pstate) (adj : Nat) : Prop :=
  ∃ f t q', (∀ g, f ≤ g → tokF g (.scan q adj) = some (t, q')) ∧
    q'.body = q.body ∧
    (q.cursor ≤ q.body.length → q'.cursor ≤ q'.body.length) ∧
    M4 q' ≤ M4 q ∧
    (q.done = false → tokcost q.token = 2 →
      M4 q' + 3 ≤ M4 q ∨ (M4 q' ≤ M4 q ∧ q.begin_ ≠ q.cursor))

/-- Progress of `recurse`'s drive-to-`EOF` loop. -/
def drvP (s : Pstate) : Prop :=
  ∃ f s', (∀ g, f ≤ g → tokF g (.drv s) = some (Token.EOF, s')) ∧
    s'.body = s.body ∧
    (s.cursor ≤ s.body.length → s'.cursor ≤ s'.body.length)

/-- The progress statement of a tokenizer call. -/
def tokProgP : TokCall → Prop
  | .nxt p => nxtP p
  | .scan q adj => scanP q adj
  | .drv s => drvP s

/-- Body length of a tokenizer call (decreases across `[` recursion). -/
def tcLen : TokCall → Nat
  | .nxt p => p.body.length
  | .scan q _ => q.body.length
  | .drv s => s.body.length

/-- Measure of a tokenizer call at fixed body length. -/
def tcM : TokCall → Nat
  | .nxt p => M4 p + 6
  | .scan q _ => M4 q + 3
  | .drv s => M4 s + 7

/-- Composition of one consuming scan-loop step with the progress of the
rest of the loop. -/
theorem scanP_step (q q1 : Pstate) (adj adj1 : Nat)
    (hstep : ∀ g, tokF (g + 1) (.scan q adj) = tokF g (.scan q1 adj1))
    (hbody : q1.body = q.body)
    (hcur : q.cursor ≤ q.body.length → q1.cursor ≤ q1.body.length)
    (hm1 : M4 q1 ≤ M4 q)
    (hm3 : tokcost q.token = 2 → M4 q1 + 3 ≤ M4 q)
    (hP : scanP q1 adj1) : scanP q adj := by
  obtain ⟨f, t, q', hrun, hb, hc, hle, hs4⟩ := hP
  refine ⟨f + 1, t, q', ?_, ?_, ?_, ?_, ?_⟩
  · intro g hg
    obtain ⟨g', rfl⟩ : ∃ g', g = g' + 1 := ⟨g - 1, by omega⟩
    rw [hstep g']
    exact hrun g' (by omega)
  · rw [hb, hbody]
  · intro h
    exact hc (hcur h)
  · exact le_trans hle hm1
  · intro hd hcost
    exact Or.inl (by have := hm3 hcost; omega)

end Tcl

namespace Tcl

theorem tokcost_eq_two {t : Token} (h1 : t ≠ Token.EOF) (h2 : t ≠ Token.EOL) :
    tokcost t = 2 := by
  cases t <;> simp_all [tokcost]

theorem scanMeasure {q q1 : Pstate} {adj1 M : Nat} (hMq : M4 q + 3 ≤ M)
    (h1 : M4 q1 < M4 q) : tcM (.scan q1 adj1) < M := by
  simp only [tcM]; omega

theorem nxtMeasure {q p1 : Pstate} {M : Nat} (hMq : M4 q + 3 ≤ M)
    (h1 : M4 p1 + 6 ≤ M4 q + 2) : tcM (.nxt p1) < M := by
  simp only [tcM]; omega

theorem tokProgAux : ∀ (L M : Nat) (c : TokCall), tcLen c < L → tcM c < M → tokProgP c := by
  intro L
  induction L with
  | zero => intro M c hL hM; omega
  | succ L ihL =>
    intro M
    induction M with
    | zero => intro c hL hM; omega
    | succ M ihM =>
      intro c hL hM
      cases c with
      | nxt p =>
        by_cases hd : p.done
        · by_cases ht : p.token ≠ Token.EOF ∧ p.token ≠ Token.EOL
          · refine ⟨1, Token.EOL, { p with token := Token.EOL }, ?_, rfl, ?_, ?_, ?_⟩
            · intro g hg
              obtain ⟨g', rfl⟩ : ∃ g', g = g' + 1 := ⟨g - 1, by omega⟩
              simp [tokF, hd, ht.1, ht.2]
            · intro h; exact h
            · simp only [M4, tokcost_eq_two ht.1 ht.2, tokcost_EOL]
              omega
            · intro _
              simp only [M4, tokcost_eq_two ht.1 ht.2, tokcost_EOL]
              omega
          · refine ⟨1, Token.EOF, { p with token := Token.EOF }, ?_, rfl, ?_, ?_, ?_⟩
            · intro g hg
              obtain ⟨g', rfl⟩ : ∃ g', g = g' + 1 := ⟨g - 1, by omega⟩
              simp only [tokF]
              rw [if_pos hd, if_neg ht]
            · intro h; exact h
            · simp only [M4, tokcost_EOF]
              have := tokcost_le p.token
              omega
            · intro hcase
              rcases hcase with hcase | hcase
              · rw [hd] at hcase; exact absurd hcase (by simp)
              · exact absurd rfl hcase
        · have hdf : p.done = false := by simpa using hd
          have hs : scanP { p with token := Token.ESC, begin_ := p.cursor } 0 :=
            ihM (.scan { p with token := Token.ESC, begin_ := p.cursor } 0)
              (by simpa [tcLen] using hL)
              (by
                simp only [tcM, M4, tokcost_ESC] at hM ⊢
                have := tokcost_le p.token
                omega)
          obtain ⟨f, t, q', hrun, hb, hc, hle, hs4⟩ := hs
          have hstrict : M4 q' < M4 p := by
            rcases hs4 hdf (by simp [tokcost]) with h1 | ⟨h2, h3⟩
            · simp only [M4, tokcost_ESC] at h1 ⊢
              have := tokcost_le p.token
              omega
            · exact absurd rfl h3
          refine ⟨f + 1, t, q', ?_, hb, ?_, le_of_lt hstrict, fun _ => hstrict⟩
          · intro g hg
            obtain ⟨g', rfl⟩ : ∃ g', g = g' + 1 := ⟨g - 1, by omega⟩
            simp only [tokF]
            rw [if_neg hd]
            exact hrun g' (by omega)
          · intro h; exact hc h
      | drv s =>
        have hn : nxtP s := ihM (.nxt s) (by simpa [tcLen] using hL)
          (by simp only [tcM] at hM ⊢; omega)
        obtain ⟨f1, t, s1, hrun1, hb1, hc1, hle1, hlt1⟩ := hn
        by_cases ht : t = Token.EOF
        · subst ht
          refine ⟨f1 + 1, s1, ?_, hb1, hc1⟩
          intro g hg
          obtain ⟨g', rfl⟩ : ∃ g', g = g' + 1 := ⟨g - 1, by omega⟩
          simp only [tokF]
          rw [hrun1 g' (by omega)]
          simp
        · have hlt : M4 s1 < M4 s := hlt1 (Or.inr ht)
          have hd2 : drvP s1 := ihM (.drv s1)
            (by simp only [tcLen] at hL ⊢; rw [hb1]; exact hL)
            (by simp only [tcM] at hM ⊢; omega)
          obtain ⟨f2, s', hrun2, hb2, hc2⟩ := hd2
          refine ⟨max f1 f2 + 1, s', ?_, by rw [hb2, hb1], ?_⟩
          · intro g hg
            obtain ⟨g', rfl⟩ : ∃ g', g = g' + 1 := ⟨g - 1, by omega⟩
            simp only [tokF]
            rw [hrun1 g' (by omega)]
            simp only [ht, if_false, reduceCtorEq, ite_false]
            exact hrun2 g' (by omega)
          · intro h; exact hc2 (hc1 h)
      | scan q adj =>
        by_cases hd : q.done
        · refine ⟨1, q.token, { q with end_ := q.cursor - adj }, ?_, rfl, ?_, le_refl _, ?_⟩
          · intro g hg
            obtain ⟨g', rfl⟩ : ∃ g', g = g' + 1 := ⟨g - 1, by omega⟩
            simp [tokF, hd]
          · intro h; exact h
          · intro hdf
            rw [hd] at hdf
            exact absurd hdf (by simp)
        · have hdf : q.done = false := by simpa using hd
          have hlt : q.cursor < q.body.length := done_false_lt hdf
          have hMq : M4 q + 3 ≤ M := by simp only [tcM] at hM; omega
          by_cases hterm : q.peek = q.terminating_char
          · refine ⟨1, Token.EOF, { q with cursor := q.cursor + 1, end_ := q.cursor },
              ?_, rfl, ?_, ?_, ?_⟩
            · intro g hg
              obtain ⟨g', rfl⟩ : ∃ g', g = g' + 1 := ⟨g - 1, by omega⟩
              simp [tokF, hd, hterm]
            · intro h; simp only []; omega
            · simp only [M4]; omega
            · intro _ _
              left
              simp only [M4]
              omega
          · by_cases h123 : q.peek = 123
            · have hterm2 : ¬(123 : Nat) = q.terminating_char := by
                rw [← h123]; exact hterm
              by_cases henc : q.in_quote ∨ q.in_string
              · refine scanP_step q { q with cursor := q.cursor + 1 } adj 0
                  (fun g => by simp [tokF, hd, hterm, hterm2, h123, henc]) rfl
                  (fun h => by simp only []; omega)
                  (by simp only [M4]; omega)
                  (fun _ => by simp only [M4]; omega)
                  (ihM (.scan { q with cursor := q.cursor + 1 } 0)
                    (by simpa [tcLen] using hL)
                    (scanMeasure hMq (by simp only [M4]; omega)))
              · by_cases hbr : q.in_brace
                · refine scanP_step q
                    { q with cursor := q.cursor + 1, brace_level := q.brace_level + 1 } adj 0
                    (fun g => by simp [tokF, hd, hterm, hterm2, h123, henc, hbr]) rfl
                    (fun h => by simp only []; omega)
                    (by simp only [M4]; omega)
                    (fun _ => by simp only [M4]; omega)
                    (ihM (.scan { q with cursor := q.cursor + 1, brace_level := q.brace_level + 1 } 0)
                      (by simpa [tcLen] using hL)
                      (scanMeasure hMq (by simp only [M4]; omega)))
                · refine scanP_step q
                    { q with
                        cursor := q.cursor + 1, begin_ := q.begin_ + 1,
                        token := Token.STR, in_brace := true,
                        brace_level := q.brace_level + 1 } adj 0
                    (fun g => by simp [tokF, hd, hterm, hterm2, h123, henc, hbr]) rfl
                    (fun h => by simp only []; omega)
                    (by
                      simp only [M4, tokcost]
                      have := tokcost_le q.token
                      omega)
                    (fun hcost => by simp only [M4, tokcost, hcost]; omega)
                    (ihM (.scan { q with
                        cursor := q.cursor + 1, begin_ := q.begin_ + 1,
                        token := Token.STR, in_brace := true,
                        brace_level := q.brace_level + 1 } 0)
                      (by simpa [tcLen] using hL)
                      (scanMeasure hMq (by
                        simp only [M4, tokcost_STR]
                        have := tokcost_le q.token
                        omega)))
            · by_cases h125 : q.peek = 125
              · have hterm2 : ¬(125 : Nat) = q.terminating_char := by
                  rw [← h125]; exact hterm
                by_cases henc : q.in_quote ∨ q.in_string
                · refine scanP_step q { q with cursor := q.cursor + 1 } adj 0
                    (fun g => by simp [tokF, hd, hterm, hterm2, h123, h125, henc]) rfl
                    (fun h => by simp only []; omega)
                    (by simp only [M4]; omega)
                    (fun _ => by simp only [M4]; omega)
                    (ihM (.scan { q with cursor := q.cursor + 1 } 0)
                      (by simpa [tcLen] using hL)
                      (scanMeasure hMq (by simp only [M4]; omega)))
                · by_cases hlvl : 0 < q.brace_level
                  · by_cases hone : q.brace_level - 1 = 0
                    · refine ⟨1, q.token, { q with
                        cursor := q.cursor + 1, brace_level := 0, in_brace := false,
                        end_ := q.cursor }, ?_, rfl, ?_, ?_, ?_⟩
                      · intro g hg
                        obtain ⟨g', rfl⟩ : ∃ g', g = g' + 1 := ⟨g - 1, by omega⟩
                        simp [tokF, hd, hterm, hterm2, h123, h125, henc, hlvl, hone]
                      · intro h; simp only []; omega
                      · simp only [M4]; omega
                      · intro _ _
                        left
                        simp only [M4]
                        omega
                    · refine scanP_step q
                        { q with cursor := q.cursor + 1, brace_level := q.brace_level - 1 } adj 0
                        (fun g => by simp [tokF, hd, hterm, hterm2, h123, h125, henc, hlvl, hone]) rfl
                        (fun h => by simp only []; omega)
                        (by simp only [M4]; omega)
                        (fun _ => by simp only [M4]; omega)
                        (ihM (.scan { q with
                            cursor := q.cursor + 1,
                            brace_level := q.brace_level - 1 } 0)
                          (by simpa [tcLen] using hL)
                          (scanMeasure hMq (by simp only [M4]; omega)))
                  · refine scanP_step q { q with cursor := q.cursor + 1 } adj 0
                      (fun g => by simp [tokF, hd, hterm, hterm2, h123, h125, henc, hlvl]) rfl
                      (fun h => by simp only []; omega)
                      (by simp only [M4]; omega)
                      (fun _ => by simp only [M4]; omega)
                      (ihM (.scan { q with cursor := q.cursor + 1 } 0)
                        (by simpa [tcLen] using hL)
                        (scanMeasure hMq (by simp only [M4]; omega)))
              · by_cases h91 : q.peek = 91
                · have hterm2 : ¬(91 : Nat) = q.terminating_char := by
                    rw [← h91]; exact hterm
                  by_cases henc : q.in_string ∨ q.in_quote ∨ q.in_brace
                  · refine scanP_step q { q with cursor := q.cursor + 1 } adj 0
                      (fun g => by simp [tokF, hd, hterm, hterm2, h123, h125, h91, henc]) rfl
                      (fun h => by simp only []; omega)
                      (by simp only [M4]; omega)
                      (fun _ => by simp only [M4]; omega)
                      (ihM (.scan { q with cursor := q.cursor + 1 } 0)
                        (by simpa [tcLen] using hL)
                        (scanMeasure hMq (by simp only [M4]; omega)))
                  · -- command substitution: drive a sub-parser on the suffix
                    have hs : drvP { Pstate.new (q.body.drop (q.cursor + 1)) with
                        terminating_char := 93 } :=
                      ihL (tcM (.drv { Pstate.new (q.body.drop (q.cursor + 1)) with
                          terminating_char := 93 }) + 1)
                        (.drv { Pstate.new (q.body.drop (q.cursor + 1)) with
                          terminating_char := 93 })
                        (by
                          simp only [tcLen, Pstate.new, List.length_drop] at hL ⊢
                          omega)
                        (by omega)
                    obtain ⟨f1, s', hrun1, hb1, hc1⟩ := hs
                    have hsc : s'.cursor ≤ q.body.length - (q.cursor + 1) := by
                      have := hc1 (by simp [Pstate.new])
                      rw [hb1] at this
                      simpa [Pstate.new, List.length_drop] using this
                    refine ⟨f1 + 1, Token.CMD, { q with
                        begin_ := q.begin_ + 1, cursor := q.cursor + 1 + s'.cursor,
                        token := Token.CMD, end_ := q.cursor + 1 + s'.cursor - 1 },
                      ?_, rfl, ?_, ?_, ?_⟩
                    · intro g hg
                      obtain ⟨g', rfl⟩ : ∃ g', g = g' + 1 := ⟨g - 1, by omega⟩
                      simp only [tokF]
                      rw [if_neg hd]
                      rw [if_neg hterm, if_neg h123, if_neg h125, if_pos h91, if_neg henc]
                      rw [hrun1 g' (by omega)]
                    · intro h; simp only []; omega
                    · simp only [M4, tokcost_CMD]
                      have := tokcost_le q.token
                      omega
                    · intro _ hcost
                      left
                      simp only [M4, hcost, tokcost_CMD]
                      omega
                · by_cases h36 : q.peek = 36
                  · have hterm2 : ¬(36 : Nat) = q.terminating_char := by
                      rw [← h36]; exact hterm
                    by_cases henc : q.in_string ∨ q.in_brace
                    · refine scanP_step q { q with cursor := q.cursor + 1 } adj 0
                        (fun g => by simp [tokF, hd, hterm, hterm2, h123, h125, h91, h36, henc]) rfl
                        (fun h => by simp only []; omega)
                        (by simp only [M4]; omega)
                        (fun _ => by simp only [M4]; omega)
                        (ihM (.scan { q with cursor := q.cursor + 1 } 0)
                          (by simpa [tcLen] using hL)
                          (scanMeasure hMq (by simp only [M4]; omega)))
                    · by_cases hq : q.in_quote ∧ q.cursor + 1 ≠ q.begin_ + 1
                      · refine ⟨1, q.token, { q with end_ := q.cursor }, ?_, rfl, ?_, le_refl _, ?_⟩
                        · intro g hg
                          obtain ⟨g', rfl⟩ : ∃ g', g = g' + 1 := ⟨g - 1, by omega⟩
                          simp [tokF, hd, hterm, hterm2, h123, h125, h91, h36, henc, hq.1, hq.2]
                        · intro h; exact h
                        · intro _ _
                          right
                          exact ⟨le_refl _, fun hbc => hq.2 (by omega)⟩
                      · refine scanP_step q
                          { q with
                              cursor := q.cursor + 1, begin_ := q.begin_ + 1,
                              token := Token.VAR, in_string := true } adj 0
                          (fun g => by
                            simp [tokF, hd, hterm, hterm2, h123, h125, h91, h36, henc, hq]
                            intro h1 h2
                            exact absurd ⟨h1, fun he => h2 (by omega)⟩ hq) rfl
                          (fun h => by simp only []; omega)
                          (by
                            simp [M4, tokcost_VAR]
                            have := tokcost_le q.token
                            omega)
                          (fun hcost => by
                            have hstr : q.in_string = false := by
                              cases hst : q.in_string
                              · rfl
                              · exact absurd (Or.inl hst) henc
                            simp [M4, hcost, hstr, tokcost_VAR]
                            omega)
                          (ihM (.scan { q with
                              cursor := q.cursor + 1, begin_ := q.begin_ + 1,
                              token := Token.VAR, in_string := true } 0)
                            (by simpa [tcLen] using hL)
                            (by
                              have hstr : q.in_string = false := by
                                cases hst : q.in_string
                                · rfl
                                · exact absurd (Or.inl hst) henc
                              refine scanMeasure hMq ?_
                              simp [M4, hstr, tokcost_VAR]
                              have := tokcost_le q.token
                              omega))
                  · by_cases h35 : q.peek = 35
                    · have hterm2 : ¬(35 : Nat) = q.terminating_char := by
                        rw [← h35]; exact hterm
                      by_cases henc : q.in_string ∨ q.in_quote ∨ q.in_brace
                      · refine scanP_step q { q with cursor := q.cursor + 1 } adj 0
                          (fun g => by simp [tokF, hd, hterm, hterm2, h123, h125, h91, h36, h35, henc]) rfl
                          (fun h => by simp only []; omega)
                          (by simp only [M4]; omega)
                          (fun _ => by simp only [M4]; omega)
                          (ihM (.scan { q with cursor := q.cursor + 1 } 0)
                            (by simpa [tcLen] using hL)
                            (scanMeasure hMq (by simp only [M4]; omega)))
                      · -- comment: skip to end of line, then emit the next token
                        have hcm : commentRun (q.body.drop (q.cursor + 1)) ≤
                            q.body.length - (q.cursor + 1) := by
                          have := commentRun_le (q.body.drop (q.cursor + 1))
                          simpa [List.length_drop] using this
                        have hn : nxtP { q with
                            cursor := q.cursor + 1 + commentRun (q.body.drop (q.cursor + 1)) } :=
                          ihM (.nxt { q with
                              cursor := q.cursor + 1 + commentRun (q.body.drop (q.cursor + 1)) })
                            (by simpa [tcLen] using hL)
                            (nxtMeasure hMq (by simp only [M4]; omega))
                        obtain ⟨f1, t, p', hrun1, hb1, hc1, hle1, hlt1⟩ := hn
                        refine ⟨f1 + 1, t, p', ?_, hb1, ?_, ?_, ?_⟩
                        · intro g hg
                          obtain ⟨g', rfl⟩ : ∃ g', g = g' + 1 := ⟨g - 1, by omega⟩
                          simp only [tokF]
                          rw [if_neg hd]
                          rw [if_neg hterm, if_neg h123, if_neg h125, if_neg h91, if_neg h36,
                            if_pos h35, if_neg henc]
                          exact hrun1 g' (by omega)
                        · intro h
                          exact hc1 (by simp only []; omega)
                        · refine le_trans hle1 ?_
                          simp only [M4]
                          omega
                        · intro _ _
                          left
                          have : M4 { q with
                              cursor := q.cursor + 1 + commentRun (q.body.drop (q.cursor + 1)) } + 6
                              ≤ M4 q := by
                            simp only [M4]
                            omega
                          omega
                    · by_cases h34 : q.peek = 34
                      · have hterm2 : ¬(34 : Nat) = q.terminating_char := by
                          rw [← h34]; exact hterm
                        by_cases hqw : q.in_quote
                        · refine ⟨1, q.token, { q with
                            cursor := q.cursor + 1, in_quote := false, end_ := q.cursor },
                            ?_, rfl, ?_, ?_, ?_⟩
                          · intro g hg
                            obtain ⟨g', rfl⟩ : ∃ g', g = g' + 1 := ⟨g - 1, by omega⟩
                            simp [tokF, hd, hterm, hterm2, h123, h125, h91, h36, h35, h34, hqw]
                          · intro h; simp only []; omega
                          · simp only [M4]; omega
                          · intro _ _
                            left
                            simp only [M4]
                            omega
                        · refine scanP_step q
                            { q with
                                cursor := q.cursor + 1, in_quote := true,
                                begin_ := q.begin_ + 1 } adj 1
                            (fun g => by simp [tokF, hd, hterm, hterm2, h123, h125, h91, h36, h35, h34, hqw]) rfl
                            (fun h => by simp only []; omega)
                            (by simp only [M4]; omega)
                            (fun _ => by simp only [M4]; omega)
                            (ihM (.scan { q with
                                cursor := q.cursor + 1, in_quote := true,
                                begin_ := q.begin_ + 1 } 1)
                              (by simpa [tcLen] using hL)
                              (scanMeasure hMq (by simp only [M4]; omega)))
                      · by_cases hws : q.peek = 10 ∨ q.peek = 13 ∨ q.peek = 9 ∨
                          q.peek = 59 ∨ q.peek = 32
                        · by_cases hbr : q.in_brace
                          · refine scanP_step q { q with cursor := q.cursor + 1 } adj 0
                              (fun g => by
                                simp [tokF, hd, hterm, h123, h125, h91, h36, h35, h34, hws, hbr]) rfl
                              (fun h => by simp only []; omega)
                              (by simp only [M4]; omega)
                              (fun _ => by simp only [M4]; omega)
                              (ihM (.scan { q with cursor := q.cursor + 1 } 0)
                                (by simpa [tcLen] using hL)
                                (scanMeasure hMq (by simp only [M4]; omega)))
                          · by_cases hst : q.in_string
                            · refine ⟨1, q.token, { q with in_string := false, end_ := q.cursor },
                                ?_, rfl, ?_, ?_, ?_⟩
                              · intro g hg
                                obtain ⟨g', rfl⟩ : ∃ g', g = g' + 1 := ⟨g - 1, by omega⟩
                                simp [tokF, hd, hterm, h123, h125, h91, h36, h35, h34, hws, hbr, hst]
                              · intro h; exact h
                              · simp [M4, hst]
                                try omega
                              · intro _ _
                                left
                                simp [M4, hst]
                                try omega
                            · by_cases hqw : q.in_quote
                              · refine scanP_step q { q with cursor := q.cursor + 1 } adj 0
                                  (fun g => by
                                    simp [tokF, hd, hterm, h123, h125, h91, h36, h35, h34, hws,
                                      hbr, hst, hqw]) rfl
                                  (fun h => by simp only []; omega)
                                  (by simp only [M4]; omega)
                                  (fun _ => by simp only [M4]; omega)
                                  (ihM (.scan { q with cursor := q.cursor + 1 } 0)
                                    (by simpa [tcLen] using hL)
                                    (scanMeasure hMq (by simp only [M4]; omega)))
                              · have hwsle : (wsRun (q.body.drop (q.cursor + 1))).2 ≤
                                    q.body.length - (q.cursor + 1) := by
                                  have := wsRun_le (q.body.drop (q.cursor + 1))
                                  simpa [List.length_drop] using this
                                refine ⟨1,
                                  (if (wsRun (q.body.drop (q.cursor + 1))).1 then Token.EOL
                                   else if q.peek = 10 ∨ q.peek = 59 then Token.EOL else Token.SEP),
                                  { q with
                                      cursor := q.cursor + 1 + (wsRun (q.body.drop (q.cursor + 1))).2,
                                      token := (if (wsRun (q.body.drop (q.cursor + 1))).1 then Token.EOL
                                      else if q.peek = 10 ∨ q.peek = 59 then Token.EOL else Token.SEP),
                                      end_ := q.cursor + 1 + (wsRun (q.body.drop (q.cursor + 1))).2 },
                                  ?_, rfl, ?_, ?_, ?_⟩
                                · intro g hg
                                  obtain ⟨g', rfl⟩ : ∃ g', g = g' + 1 := ⟨g - 1, by omega⟩
                                  simp only [tokF]
                                  rw [if_neg hd]
                                  rw [if_neg hterm, if_neg h123, if_neg h125, if_neg h91,
                                    if_neg h36, if_neg h35, if_neg h34, if_pos hws, if_neg hbr]
                                  rw [if_neg hst, if_neg hqw]
                                · intro h; simp only []; omega
                                · simp only [M4]
                                  have h1 : tokcost (if (wsRun (q.body.drop (q.cursor + 1))).1
                                      then Token.EOL
                                      else if q.peek = 10 ∨ q.peek = 59 then Token.EOL
                                      else Token.SEP) ≤ 2 := tokcost_le _
                                  omega
                                · intro _ hcost
                                  left
                                  simp only [M4, hcost]
                                  have h1 : tokcost (if (wsRun (q.body.drop (q.cursor + 1))).1
                                      then Token.EOL
                                      else if q.peek = 10 ∨ q.peek = 59 then Token.EOL
                                      else Token.SEP) ≤ 2 := tokcost_le _
                                  omega
                        · by_cases hmode : ¬ q.in_brace ∧ ¬ q.in_quote
                          · refine scanP_step q
                              { q with cursor := q.cursor + 1, in_string := true } adj 0
                              (fun g => by
                                simp [tokF, hd, hterm, h123, h125, h91, h36, h35, h34, hws, hmode]) rfl
                              (fun h => by simp only []; omega)
                              (by
                                simp [M4]
                                have : (if q.in_string then 3 else 0) ≤ 3 := by
                                  split <;> omega
                                omega)
                              (fun _ => by
                                simp [M4]
                                have : (if q.in_string then 3 else 0) ≤ 3 := by
                                  split <;> omega
                                omega)
                              (ihM (.scan { q with cursor := q.cursor + 1, in_string := true } 0)
                                (by simpa [tcLen] using hL)
                                (scanMeasure hMq (by
                                  simp [M4]
                                  have : (if q.in_string then 3 else 0) ≤ 3 := by
                                    split <;> omega
                                  omega)))
                          · refine scanP_step q { q with cursor := q.cursor + 1 } adj 0
                              (fun g => by
                                simp [tokF, hd, hterm, h123, h125, h91, h36, h35, h34, hws, hmode]
                                intro h1 h2
                                exact absurd ⟨by simp [h1], by simp [h2]⟩ hmode) rfl
                              (fun h => by simp only []; omega)
                              (by simp only [M4]; omega)
                              (fun _ => by simp only [M4]; omega)
                              (ihM (.scan { q with cursor := q.cursor + 1 } 0)
                                (by simpa [tcLen] using hL)
                                (scanMeasure hMq (by simp only [M4]; omega)))

end Tcl

namespace Tcl

/-- Every tokenizer call makes progress (terminates with enough fuel). -/
theorem tokProg (c : TokCall) : tokProgP c :=
  tokProgAux (tcLen c + 1) (tcM c + 1) c (Nat.lt_succ_self _) (Nat.lt_succ_self _)

/-- `Parser::next` iterated `n` times from state `p`, each call with fuel
`f`; returns the final state. -/
def iterNext (f : Nat) : Nat → Pstate → Option Pstate
  | 0, p => some p
  | n + 1, p =>
    match Pstate.next f p with
    | none => none
    | some (_, p') => iterNext f n p'

/-- Some number of `next` calls reaches an end-of-input state (given enough
fuel per call). -/
def reachesDone (p : Pstate) : Prop :=
  ∃ n f, ∀ g, f ≤ g → ∃ p', iterNext g n p = some p' ∧ p'.done = true

theorem reaches_done_aux : ∀ (m : Nat) (p : Pstate), M4 p < m → reachesDone p := by
  intro m
  induction m with
  | zero => intro p h; omega
  | succ m ih =>
    intro p hm
    by_cases hd : p.done
    · exact ⟨0, 0, fun g hg => ⟨p, rfl, hd⟩⟩
    · have hnx : nxtP p := tokProg (.nxt p)
      obtain ⟨f, t, p', hrun, hbody, hcur, hle, hlt⟩ := hnx
      have hdf : p.done = false := by simpa using hd
      have hstrict : M4 p' < M4 p := hlt (Or.inl hdf)
      obtain ⟨n, f2, hrest⟩ := ih p' (by omega)
      refine ⟨n + 1, max f f2, fun g hg => ?_⟩
      obtain ⟨p'', hit, hdone⟩ := hrest g (le_trans (le_max_right _ _) hg)
      refine ⟨p'', ?_, hdone⟩
      have h1 : Pstate.next g p = some (t, p') :=
        hrun g (le_trans (le_max_left _ _) hg)
      simp only [iterNext, h1]
      exact hit

theorem reaches_done (p : Pstate) : reachesDone p :=
  reaches_done_aux (M4 p + 1) p (Nat.lt_succ_self _)

/-- C4, amended claim.  For every input byte sequence and every reachable
tokenizer state, repeatedly calling `next()` terminates and eventually
reaches end of input (`reachesDone`).  From any end-of-input state the
guard consults the *recorded* token kind: if it is neither `EOF` nor `EOL`,
`next()` emits exactly one synthesized `EOL` (recording `EOL`); if it is
`EOF` or `EOL`, `next()` emits `EOF` (recording `EOF`), and the state stays
at end of input, so every subsequent call emits `EOF`.  The original
claim's "every call after that emits EOF (and only EOF)" keyed on the
*emitted* token is false, because the terminating-character early return
emits `EOF` without recording it (see the counterexample on a NUL byte,
where `EOF` is followed by `EOL`). -/
theorem c4_amended (p q : Pstate) :
    reachesDone p ∧
    (q.done = true → q.token ≠ Token.EOF → q.token ≠ Token.EOL →
      ∀ f, Pstate.next (f + 1) q = some (Token.EOL, { q with token := Token.EOL })) ∧
    (q.done = true → (q.token = Token.EOF ∨ q.token = Token.EOL) →
      ∀ f, Pstate.next (f + 1) q = some (Token.EOF, { q with token := Token.EOF })) ∧
    (∀ t : Token, ({ q with token := t } : Pstate).done = q.done) := by
  refine ⟨reaches_done p, ?_, ?_, fun t => rfl⟩
  · intro hdone h1 h2 f
    simp [Pstate.next, tokF, hdone, h1, h2]
  · intro hdone hor f
    rcases hor with h | h <;> simp [Pstate.next, tokF, hdone, h]

theorem c4_amended_witness :
    (({ Pstate.new [] with token := Token.STR } : Pstate).done = true ∧
      Token.STR ≠ Token.EOF ∧ Token.STR ≠ Token.EOL) ∧
    Pstate.next 1 { Pstate.new [] with token := Token.STR } =
      some (Token.EOL, { Pstate.new [] with token := Token.EOL }) :=
  ⟨⟨by decide, by decide, by decide⟩,
    (c4_amended (Pstate.new []) { Pstate.new [] with token := Token.STR }).2.1
      (by decide) (by decide) (by decide) 0⟩

end Tcl
